import Mathlib

/-!
Verification of the QuestLang core (lexer, parser, module loader, interpreter)
against its natural-language specification.  The definitions below are a
shallow embedding of the TypeScript sources: `Lexer` (lexer.ts),
`Parser` (parser.ts), `ModuleLoader` (module-loader.ts),
`QuestInterpreter` (interpreter.ts) and the `QuestLang` facade (index.ts).
Loops of the source are embedded as fuel-indexed recursions; every loop of the
source consumes at least one character (lexer) or token (parser) per
iteration, so a fuel of `input length + 1` makes the embedded function agree
with the source loop (the fuel-zero branch returns the loop-exit
continuation, which is only reached once the input is exhausted).
-/

namespace QuestLang

/-! ## Tokens (ast.ts) -/

/-- TokenType from ast.ts: literals, keywords, symbols and specials. -/
inductive TokenType where
  | IDENTIFIER | STRING | NUMBER
  | QUEST | GOAL | GRAPH | NODES | START | END
  | TYPE | DESCRIPTION | TRANSITIONS | OPTIONS | TITLE
  | MODULE | IMPORT | EXPORT | FROM
  | INITIAL | ACTION | ENDING
  | SEMICOLON | COLON | COMMA | DOT | AT
  | LEFT_BRACE | RIGHT_BRACE | LEFT_BRACKET | RIGHT_BRACKET
  | LEFT_PAREN | RIGHT_PAREN
  | EOF | NEWLINE | COMMENT | WHITESPACE
  deriving Repr, DecidableEq

/-- The string value of each TokenType member of the TypeScript enum
(used when a token type is interpolated into an error message). -/
def TokenType.text : TokenType → String
  | .IDENTIFIER => "IDENTIFIER"
  | .STRING => "STRING"
  | .NUMBER => "NUMBER"
  | .QUEST => "квест"
  | .GOAL => "цель"
  | .GRAPH => "граф"
  | .NODES => "узлы"
  | .START => "начало"
  | .END => "конец"
  | .TYPE => "тип"
  | .DESCRIPTION => "описание"
  | .TRANSITIONS => "переходы"
  | .OPTIONS => "варианты"
  | .TITLE => "название"
  | .MODULE => "модуль"
  | .IMPORT => "импорт"
  | .EXPORT => "экспорт"
  | .FROM => "из"
  | .INITIAL => "начальный"
  | .ACTION => "действие"
  | .ENDING => "концовка"
  | .SEMICOLON => ";"
  | .COLON => ":"
  | .COMMA => ","
  | .DOT => "."
  | .AT => "@"
  | .LEFT_BRACE => "\x7b"
  | .RIGHT_BRACE => "\x7d"
  | .LEFT_BRACKET => "["
  | .RIGHT_BRACKET => "]"
  | .LEFT_PAREN => "("
  | .RIGHT_PAREN => ")"
  | .EOF => "EOF"
  | .NEWLINE => "NEWLINE"
  | .COMMENT => "COMMENT"
  | .WHITESPACE => "WHITESPACE"

/-- Token from ast.ts.  `endPos` embeds the source's `end` field. -/
structure Token where
  type : TokenType
  value : String
  line : Nat
  column : Nat
  start : Nat
  endPos : Nat
  deriving Repr, DecidableEq

/-! ## Lexer (lexer.ts)

The lexer walks the source one UTF-16 code unit at a time; every character of
the QuestLang alphabet is one code unit, so `List Char` positions coincide
with the source's string indices. -/

/-- The keyword table of lexer.ts. -/
def keywords : List (String × TokenType) :=
  [ ("квест", .QUEST), ("цель", .GOAL), ("граф", .GRAPH), ("узлы", .NODES)
  , ("начало", .START), ("конец", .END), ("тип", .TYPE)
  , ("описание", .DESCRIPTION), ("переходы", .TRANSITIONS)
  , ("варианты", .OPTIONS), ("название", .TITLE)
  , ("модуль", .MODULE), ("импорт", .IMPORT), ("экспорт", .EXPORT)
  , ("из", .FROM), ("начальный", .INITIAL), ("действие", .ACTION)
  , ("концовка", .ENDING) ]

/-- `isDigit` of lexer.ts. -/
def isDigit (c : Char) : Bool := '0' ≤ c ∧ c ≤ '9'

/-- `isAlpha` of lexer.ts: Latin, Cyrillic, ё and underscore. -/
def isAlpha (c : Char) : Bool :=
  ('a' ≤ c ∧ c ≤ 'z') ∨ ('A' ≤ c ∧ c ≤ 'Z')
    ∨ ('а' ≤ c ∧ c ≤ 'я') ∨ ('А' ≤ c ∧ c ≤ 'Я')
    ∨ c = 'ё' ∨ c = 'Ё'
    ∨ c = '_'

/-- `isAlphaNumeric` of lexer.ts. -/
def isAlphaNumeric (c : Char) : Bool := isAlpha c ∨ isDigit c

/-- The mutable fields of the Lexer class. -/
structure LexState where
  chars : List Char
  position : Nat
  line : Nat
  column : Nat
  tokens : List Token
  deriving Repr, DecidableEq

/-- `source.charAt(i)`: the character at index `i` (out of range is
unreachable at every use site; a NUL placeholder stands for the empty
string JavaScript would return). -/
def charAtPos (chars : List Char) (i : Nat) : Char := chars.getD i '\x00'

/-- `isAtEnd` of lexer.ts. -/
def LexState.isAtEnd (st : LexState) : Bool := st.chars.length ≤ st.position

/-- `peek` of lexer.ts. -/
def LexState.peek (st : LexState) : Char :=
  if st.isAtEnd then '\x00' else charAtPos st.chars st.position

/-- `peekNext` of lexer.ts. -/
def LexState.peekNext (st : LexState) : Char :=
  if st.chars.length ≤ st.position + 1 then '\x00'
  else charAtPos st.chars (st.position + 1)

/-- `advance` of lexer.ts: return the current character, then step
position and column. -/
def LexState.advance (st : LexState) : Char × LexState :=
  (charAtPos st.chars st.position,
   { st with position := st.position + 1, column := st.column + 1 })

/-- `match(expected)` of lexer.ts. -/
def LexState.matchChar (st : LexState) (expected : Char) : Bool × LexState :=
  if st.isAtEnd then (false, st)
  else if charAtPos st.chars st.position ≠ expected then (false, st)
  else (true, { st with position := st.position + 1, column := st.column + 1 })

/-- `source.substring(a, b)` over the character list. -/
def substring (chars : List Char) (a b : Nat) : String :=
  String.mk ((chars.drop a).take (b - a))

/-- JavaScript `x || dflt` over an optional numeric argument: both an absent
argument and a zero value fall back to the default. -/
def orElseNat (x : Option Nat) (dflt : Nat) : Nat :=
  match x with
  | some v => if v = 0 then dflt else v
  | none => dflt

/-- `addToken` of lexer.ts, including the `value || fallback` defaulting
of the optional start/line/column arguments. -/
def LexState.addToken (st : LexState) (type : TokenType) (value : String)
    (start line column : Option Nat) : LexState :=
  { st with tokens := st.tokens ++
      [ { type := type, value := value
        , line := orElseNat line st.line
        , column := orElseNat column st.column
        , start := orElseNat start st.position
        , endPos := st.position } ] }

/-- The two throw sites of lexer.ts. -/
inductive LexError where
  | unexpectedChar (c : Char) (line column : Nat)
  | unterminatedString (line column : Nat)
  deriving Repr, DecidableEq

/-- The message text of each LexError, as thrown by lexer.ts. -/
def LexError.render : LexError → String
  | .unexpectedChar c l k =>
      "Unexpected character: " ++ String.mk [c] ++ " at " ++ toString l ++ ":" ++ toString k
  | .unterminatedString l k =>
      "Unterminated string at " ++ toString l ++ ":" ++ toString k

/-- `scanComment` of lexer.ts: the loop advances over every character up to
(not including) the next newline or the end of input; none of them is a
newline, so position and column each grow by the count. -/
def scanComment (st : LexState) (start startLine startColumn : Nat) : LexState :=
  let k := ((st.chars.drop st.position).takeWhile (fun c => c ≠ '\n')).length
  let st := { st with position := st.position + k, column := st.column + k }
  let value := substring st.chars start st.position
  st.addToken .COMMENT value (some start) (some startLine) (some startColumn)

/-- The body of `scanString`'s loop folded over the characters before the
closing quote: on a newline the loop sets line+1 and column 1 and the
`advance` that consumes it then moves column to 2; otherwise `advance`
steps the column. -/
def stringAdvanceLC : List Char → Nat × Nat → Nat × Nat
  | [], lc => lc
  | c :: rest, (l, k) =>
      stringAdvanceLC rest (if c = '\n' then (l + 1, 2) else (l, k + 1))

/-- `scanString` of lexer.ts: consume up to the closing quote (tracking
line/column through embedded newlines), fail at end of input, otherwise
consume the quote and emit the contents. -/
def scanString (st : LexState) (start startLine startColumn : Nat) :
    Except LexError LexState :=
  let chunk := (st.chars.drop st.position).takeWhile (fun c => c ≠ '"')
  let (l, k) := stringAdvanceLC chunk (st.line, st.column)
  let st := { st with position := st.position + chunk.length, line := l, column := k }
  if st.isAtEnd then
    .error (.unterminatedString startLine startColumn)
  else
    let st := { st with position := st.position + 1, column := st.column + 1 }
    let value := substring st.chars (start + 1) (st.position - 1)
    .ok (st.addToken .STRING value (some start) (some startLine) (some startColumn))

/-- `scanNumber` of lexer.ts: a digit run, then optionally a dot followed by
at least one digit and a further digit run. -/
def scanNumber (st : LexState) (start startLine startColumn : Nat) : LexState :=
  let d1 := ((st.chars.drop st.position).takeWhile isDigit).length
  let st := { st with position := st.position + d1, column := st.column + d1 }
  let st :=
    if st.peek = '.' ∧ isDigit st.peekNext then
      let st := { st with position := st.position + 1, column := st.column + 1 }
      let d2 := ((st.chars.drop st.position).takeWhile isDigit).length
      { st with position := st.position + d2, column := st.column + d2 }
    else st
  let value := substring st.chars start st.position
  st.addToken .NUMBER value (some start) (some startLine) (some startColumn)

/-- `scanIdentifier` of lexer.ts: an alphanumeric/underscore run, then the
keyword-table lookup. -/
def scanIdentifier (st : LexState) (start startLine startColumn : Nat) : LexState :=
  let k := ((st.chars.drop st.position).takeWhile
      (fun c => isAlphaNumeric c ∨ c = '_')).length
  let st := { st with position := st.position + k, column := st.column + k }
  let value := substring st.chars start st.position
  let type := ((keywords.lookup value).getD .IDENTIFIER)
  st.addToken type value (some start) (some startLine) (some startColumn)

/-- `scanToken` of lexer.ts: classify one character. -/
def scanToken (st : LexState) : Except LexError LexState :=
  let start := st.position
  let startLine := st.line
  let startColumn := st.column
  let (c, st) := st.advance
  if c = ' ' ∨ c = '\r' ∨ c = '\t' then .ok st
  else if c = '\n' then .ok { st with line := st.line + 1, column := 1 }
  else if c = ';' then
    .ok (st.addToken .SEMICOLON (String.mk [c]) (some start) (some startLine) (some startColumn))
  else if c = ':' then
    .ok (st.addToken .COLON (String.mk [c]) (some start) (some startLine) (some startColumn))
  else if c = ',' then
    .ok (st.addToken .COMMA (String.mk [c]) (some start) (some startLine) (some startColumn))
  else if c = '.' then
    .ok (st.addToken .DOT (String.mk [c]) (some start) (some startLine) (some startColumn))
  else if c = '@' then
    .ok (st.addToken .AT (String.mk [c]) (some start) (some startLine) (some startColumn))
  else if c = '{' then
    .ok (st.addToken .LEFT_BRACE (String.mk [c]) (some start) (some startLine) (some startColumn))
  else if c = '}' then
    .ok (st.addToken .RIGHT_BRACE (String.mk [c]) (some start) (some startLine) (some startColumn))
  else if c = '[' then
    .ok (st.addToken .LEFT_BRACKET (String.mk [c]) (some start) (some startLine) (some startColumn))
  else if c = ']' then
    .ok (st.addToken .RIGHT_BRACKET (String.mk [c]) (some start) (some startLine) (some startColumn))
  else if c = '(' then
    .ok (st.addToken .LEFT_PAREN (String.mk [c]) (some start) (some startLine) (some startColumn))
  else if c = ')' then
    .ok (st.addToken .RIGHT_PAREN (String.mk [c]) (some start) (some startLine) (some startColumn))
  else if c = '/' then
    let (m, st) := st.matchChar '/'
    if m then .ok (scanComment st start startLine startColumn)
    else .error (.unexpectedChar c startLine startColumn)
  else if c = '"' then
    scanString st start startLine startColumn
  else if isDigit c then
    .ok (scanNumber st start startLine startColumn)
  else if isAlpha c then
    .ok (scanIdentifier st start startLine startColumn)
  else
    .error (.unexpectedChar c startLine startColumn)

/-- The `while (!this.isAtEnd()) this.scanToken()` loop of `tokenize`.
Every `scanToken` consumes at least one character, so with fuel equal to the
source length the fuel-zero branch is only reached at end of input, where
the loop exits anyway. -/
def tokenizeLoop : Nat → LexState → Except LexError LexState
  | 0, st => .ok st
  | fuel + 1, st =>
      if st.isAtEnd then .ok st
      else do tokenizeLoop fuel (← scanToken st)

/-- `tokenize` of lexer.ts: run the scan loop, then append the EOF token. -/
def tokenize (source : String) : Except LexError (List Token) :=
  match tokenizeLoop source.toList.length
      { chars := source.toList, position := 0, line := 1, column := 1, tokens := [] } with
  | .error e => .error e
  | .ok st => .ok (st.addToken .EOF "" none none none).tokens

/-! ## AST (ast.ts) -/

/-- The node-type string union `'начальный' | 'действие' | 'концовка'`. -/
inductive NodeKind where
  | initial | action | ending
  deriving Repr, DecidableEq

/-- The literal text of each NodeKind member of the union. -/
def NodeKind.text : NodeKind → String
  | .initial => "начальный"
  | .action => "действие"
  | .ending => "концовка"

/-- OptionChoice from ast.ts. -/
structure OptionChoice where
  text : String
  target : String
  line : Nat
  column : Nat
  deriving Repr, DecidableEq

/-- NodeDefinition from ast.ts: the closed union InitialNode / ActionNode /
EndingNode, each carrying id, description and position, plus the
variant-specific field (transitions, options, title). -/
inductive NodeDefinition where
  | initialNode (id description : String) (transitions : List String) (line column : Nat)
  | actionNode (id description : String) (options : List OptionChoice) (line column : Nat)
  | endingNode (id description title : String) (line column : Nat)
  deriving Repr, DecidableEq

/-- The `nodeType` discriminator field. -/
def NodeDefinition.nodeType : NodeDefinition → NodeKind
  | .initialNode .. => .initial
  | .actionNode .. => .action
  | .endingNode .. => .ending

/-- The `id` field common to all variants. -/
def NodeDefinition.id : NodeDefinition → String
  | .initialNode i .. => i
  | .actionNode i .. => i
  | .endingNode i .. => i

/-- The `description` field common to all variants. -/
def NodeDefinition.description : NodeDefinition → String
  | .initialNode _ d .. => d
  | .actionNode _ d .. => d
  | .endingNode _ d .. => d

/-- A JavaScript string-keyed object (`Record<string, T>`): entries in
insertion order, keys unique. -/
def recordGet {α : Type} (m : List (String × α)) (k : String) : Option α :=
  (m.find? (fun p => p.1 = k)).map (fun p => p.2)

/-- JavaScript object property assignment `m[k] = v` (also JS `Map.set`):
an existing key keeps its position and gets the new value, a new key is
appended at the end. -/
def recordSet {α : Type} (m : List (String × α)) (k : String) (v : α) :
    List (String × α) :=
  match m with
  | [] => [(k, v)]
  | p :: rest => if p.1 = k then (k, v) :: rest else p :: recordSet rest k v

/-- GraphNode from ast.ts. -/
structure GraphNode where
  nodes : List (String × NodeDefinition)
  start : String
  line : Nat
  column : Nat
  deriving Repr, DecidableEq

/-- ImportNode from ast.ts (the reserved `alias` field is never produced by
the parser and is omitted). -/
structure ImportNode where
  moduleName : String
  modulePath : String
  line : Nat
  column : Nat
  deriving Repr, DecidableEq

/-- QuestProgram from ast.ts; the optional `imports` field is embedded as a
list that is empty exactly when the source leaves the field absent. -/
structure QuestProgram where
  name : String
  goal : String
  graph : GraphNode
  imports : List ImportNode
  line : Nat
  column : Nat
  deriving Repr, DecidableEq

/-- ModuleNode from ast.ts. -/
structure ModuleNode where
  name : String
  nodes : List (String × NodeDefinition)
  exports : List String
  imports : List ImportNode
  line : Nat
  column : Nat
  deriving Repr, DecidableEq

/-- The `QuestProgram | ModuleNode` union returned by `parseAny`. -/
inductive ParsedAny where
  | questResult (p : QuestProgram)
  | moduleResult (m : ModuleNode)
  deriving Repr, DecidableEq

/-! ## Parser (parser.ts)

The parser owns the filtered token array and a cursor.  Its `while` loops
each consume at least one token per iteration, so a fuel of
`tokens.length + 1` given to every loop makes each fuel-zero branch
unreachable before the cursor reaches EOF; the fuel-zero branches return the
loop-exit continuation. -/

/-- The fallback token `\x7b type: EOF, ... \x7d` the parser substitutes for an
out-of-range index. -/
def fallbackTok : Token :=
  { type := .EOF, value := "", line := 0, column := 0, start := 0, endPos := 0 }

/-- The mutable fields of the Parser class. -/
structure ParserState where
  tokens : List Token
  current : Nat
  deriving Repr, DecidableEq

/-- `peek` of parser.ts. -/
def ParserState.peek (st : ParserState) : Token :=
  st.tokens.getD st.current fallbackTok

/-- `previous` of parser.ts. -/
def ParserState.previous (st : ParserState) : Token :=
  st.tokens.getD (st.current - 1) fallbackTok

/-- `isAtEnd` of parser.ts. -/
def ParserState.isAtEnd (st : ParserState) : Bool :=
  st.peek.type = .EOF

/-- `check` of parser.ts. -/
def ParserState.checkTok (st : ParserState) (ty : TokenType) : Bool :=
  if st.isAtEnd then false else st.peek.type = ty

/-- `advance` of parser.ts: step the cursor unless at end, return the token
just passed. -/
def ParserState.advanceTok (st : ParserState) : Token × ParserState :=
  let st' := if st.isAtEnd then st else { st with current := st.current + 1 }
  (st'.previous, st')

/-- `match(type)` of parser.ts (every call site passes one type). -/
def ParserState.matchTok (st : ParserState) (ty : TokenType) : Bool × ParserState :=
  if st.checkTok ty then
    let (_, st') := st.advanceTok
    (true, st')
  else (false, st)

/-- `consume` of parser.ts. -/
def consume (st : ParserState) (ty : TokenType) (msg : String) :
    Except String (Token × ParserState) :=
  if st.checkTok ty then .ok st.advanceTok
  else
    let cur := st.peek
    .error (msg ++ ". Got " ++ cur.type.text ++ " at "
      ++ toString cur.line ++ ":" ++ toString cur.column)

/-- `parseTargetString` of parser.ts: a local identifier or a qualified
`@Module.node` reference collapsed to one raw string. -/
def parseTargetString (st : ParserState) : Except String (String × ParserState) := do
  let (m, st) := st.matchTok .AT
  if m then
    let (mt, st) ← consume st .IDENTIFIER "Expected module name after @"
    let (_, st) ← consume st .DOT "Expected '.' after module name"
    let (nt, st) ← consume st .IDENTIFIER "Expected node identifier after module name"
    .ok ("@" ++ mt.value ++ "." ++ nt.value, st)
  else do
    let (t, st) ← consume st .IDENTIFIER "Expected target identifier"
    .ok (t.value, st)

/-- The do-while item loop of `parseTransitions`. -/
def parseTransitionsItems :
    Nat → ParserState → List String → Except String (List String × ParserState)
  | 0, st, acc => .ok (acc, st)
  | fuel + 1, st, acc => do
      let (t, st) ← parseTargetString st
      let acc := acc ++ [t]
      let (m, st) := st.matchTok .COMMA
      if m then parseTransitionsItems fuel st acc else .ok (acc, st)

/-- `parseTransitions` of parser.ts: appends the parsed targets to the
caller's `transitions` array. -/
def parseTransitions (fuel : Nat) (st : ParserState) (transitions : List String) :
    Except String (List String × ParserState) := do
  let (_, st) ← consume st .LEFT_BRACKET "Expected '[' for transitions"
  let (transitions, st) ←
    if st.checkTok .RIGHT_BRACKET then pure (transitions, st)
    else parseTransitionsItems fuel st transitions
  let (_, st) ← consume st .RIGHT_BRACKET "Expected ']' after transitions"
  let (_, st) ← consume st .SEMICOLON "Expected ';' after transitions"
  .ok (transitions, st)

/-- The do-while item loop of `parseOptions`. -/
def parseOptionsItems :
    Nat → ParserState → List OptionChoice → Except String (List OptionChoice × ParserState)
  | 0, st, acc => .ok (acc, st)
  | fuel + 1, st, acc => do
      let optionToken := st.peek
      let (_, st) ← consume st .LEFT_PAREN "Expected '(' for option"
      let (textTok, st) ← consume st .STRING "Expected option text"
      let (_, st) ← consume st .COMMA "Expected ',' in option"
      let (target, st) ← parseTargetString st
      let (_, st) ← consume st .RIGHT_PAREN "Expected ')' after option"
      let acc := acc ++ [{ text := textTok.value, target := target
                         , line := optionToken.line, column := optionToken.column }]
      let (m, st) := st.matchTok .COMMA
      if m then parseOptionsItems fuel st acc else .ok (acc, st)

/-- `parseOptions` of parser.ts: appends the parsed options to the caller's
`options` array. -/
def parseOptions (fuel : Nat) (st : ParserState) (options : List OptionChoice) :
    Except String (List OptionChoice × ParserState) := do
  let (_, st) ← consume st .LEFT_BRACKET "Expected '[' for options"
  let (options, st) ←
    if st.checkTok .RIGHT_BRACKET then pure (options, st)
    else parseOptionsItems fuel st options
  let (_, st) ← consume st .RIGHT_BRACKET "Expected ']' after options"
  let (_, st) ← consume st .SEMICOLON "Expected ';' after options"
  .ok (options, st)

/-- The local variables of `parseNodeDefinition` that its clause loop
updates: `nodeType`, `description` and `title` are reassigned, while
`transitions` and `options` are arrays pushed into. -/
structure NodeFields where
  nodeType : NodeKind
  description : String
  transitions : List String
  options : List OptionChoice
  title : String
  deriving Repr, DecidableEq

/-- The clause loop of `parseNodeDefinition`: while the next token is
neither the closing brace nor EOF, dispatch on the clause keyword. -/
def parseNodeClauses :
    Nat → ParserState → NodeFields → Except String (NodeFields × ParserState)
  | 0, st, f => .ok (f, st)
  | fuel + 1, st, f =>
      if !st.checkTok .RIGHT_BRACE && !st.isAtEnd then
        let (mty, st') := st.matchTok .TYPE
        if mty then do
          let (_, st') ← consume st' .COLON "Expected ':' after 'тип'"
          let (typeToken, st') := st'.advanceTok
          let nt ←
            if typeToken.type = .INITIAL then pure NodeKind.initial
            else if typeToken.type = .ACTION then pure NodeKind.action
            else if typeToken.type = .ENDING then pure NodeKind.ending
            else .error ("Invalid node type: " ++ typeToken.value ++ " at "
              ++ toString typeToken.line ++ ":" ++ toString typeToken.column)
          let (_, st') ← consume st' .SEMICOLON "Expected ';' after node type"
          parseNodeClauses fuel st' { f with nodeType := nt }
        else
          let (mde, st') := st.matchTok .DESCRIPTION
          if mde then do
            let (_, st') ← consume st' .COLON "Expected ':' after 'описание'"
            let (descTok, st') ← consume st' .STRING "Expected description string"
            let (_, st') ← consume st' .SEMICOLON "Expected ';' after description"
            parseNodeClauses fuel st' { f with description := descTok.value }
          else
            let (mtr, st') := st.matchTok .TRANSITIONS
            if mtr then do
              let (_, st') ← consume st' .COLON "Expected ':' after 'переходы'"
              let (transitions, st') ← parseTransitions fuel st' f.transitions
              parseNodeClauses fuel st' { f with transitions := transitions }
            else
              let (mop, st') := st.matchTok .OPTIONS
              if mop then do
                let (_, st') ← consume st' .COLON "Expected ':' after 'варианты'"
                let (options, st') ← parseOptions fuel st' f.options
                parseNodeClauses fuel st' { f with options := options }
              else
                let (mti, st') := st.matchTok .TITLE
                if mti then do
                  let (_, st') ← consume st' .COLON "Expected ':' after 'название'"
                  let (titleTok, st') ← consume st' .STRING "Expected title string"
                  let (_, st') ← consume st' .SEMICOLON "Expected ';' after title"
                  parseNodeClauses fuel st' { f with title := titleTok.value }
                else
                  .error ("Unexpected token in node definition: " ++ st.peek.type.text
                    ++ " at " ++ toString st.peek.line ++ ":" ++ toString st.peek.column)
      else .ok (f, st)

/-- The initial values of `parseNodeDefinition`'s local variables. -/
def initialFields : NodeFields :=
  { nodeType := .action, description := "", transitions := [], options := [], title := "" }

/-- `parseNodeDefinition` of parser.ts. -/
def parseNodeDefinition (fuel : Nat) (st : ParserState) (id : String) :
    Except String (NodeDefinition × ParserState) := do
  let startToken := st.peek
  let (f, st) ← parseNodeClauses fuel st initialFields
  let node :=
    match f.nodeType with
    | .initial => NodeDefinition.initialNode id f.description f.transitions
        startToken.line startToken.column
    | .action => NodeDefinition.actionNode id f.description f.options
        startToken.line startToken.column
    | .ending => NodeDefinition.endingNode id f.description f.title
        startToken.line startToken.column
  .ok (node, st)

/-- The node loop of `parseNodes`. -/
def parseNodesLoop :
    Nat → ParserState → List (String × NodeDefinition) →
    Except String (List (String × NodeDefinition) × ParserState)
  | 0, st, nodes => .ok (nodes, st)
  | fuel + 1, st, nodes =>
      if !st.checkTok .RIGHT_BRACE && !st.isAtEnd then do
        let (idTok, st) ← consume st .IDENTIFIER "Expected node identifier"
        let (_, st) ← consume st .COLON "Expected ':' after node identifier"
        let (_, st) ← consume st .LEFT_BRACE "Expected '\x7b' after node identifier"
        let (node, st) ← parseNodeDefinition fuel st idTok.value
        let nodes := recordSet nodes idTok.value node
        let (_, st) ← consume st .RIGHT_BRACE "Expected '\x7d' after node definition"
        parseNodesLoop fuel st nodes
      else .ok (nodes, st)

/-- `parseNodes` of parser.ts: fills the caller's `nodes` record. -/
def parseNodes (fuel : Nat) (st : ParserState) (nodes : List (String × NodeDefinition)) :
    Except String (List (String × NodeDefinition) × ParserState) := do
  let (_, st) ← consume st .LEFT_BRACE "Expected '\x7b' after 'узлы'"
  let (nodes, st) ← parseNodesLoop fuel st nodes
  let (_, st) ← consume st .RIGHT_BRACE "Expected '\x7d' after nodes"
  .ok (nodes, st)

/-- The body loop of `parseGraph`. -/
def parseGraphLoop :
    Nat → ParserState → List (String × NodeDefinition) → String →
    Except String ((List (String × NodeDefinition) × String) × ParserState)
  | 0, st, nodes, start => .ok ((nodes, start), st)
  | fuel + 1, st, nodes, start =>
      if !st.checkTok .RIGHT_BRACE && !st.isAtEnd then
        let (m, st') := st.matchTok .NODES
        if m then do
          let (nodes, st') ← parseNodes fuel st' nodes
          parseGraphLoop fuel st' nodes start
        else
          let (m2, st') := st.matchTok .START
          if m2 then do
            let (_, st') ← consume st' .COLON "Expected ':' after 'начало'"
            let (idTok, st') ← consume st' .IDENTIFIER "Expected start node identifier"
            let (_, st') ← consume st' .SEMICOLON "Expected ';' after start node"
            parseGraphLoop fuel st' nodes idTok.value
          else
            .error ("Unexpected token in graph: " ++ st.peek.type.text
              ++ " at " ++ toString st.peek.line ++ ":" ++ toString st.peek.column)
      else .ok ((nodes, start), st)

/-- `parseGraph` of parser.ts. -/
def parseGraph (fuel : Nat) (st : ParserState) :
    Except String (GraphNode × ParserState) := do
  let (graphToken, st) ← consume st .GRAPH "Expected 'граф'"
  let (_, st) ← consume st .LEFT_BRACE "Expected '\x7b' after 'граф'"
  let ((nodes, start), st) ← parseGraphLoop fuel st [] ""
  let (_, st) ← consume st .RIGHT_BRACE "Expected '\x7d' after graph body"
  .ok ({ nodes := nodes, start := start
       , line := graphToken.line, column := graphToken.column }, st)

/-- `parseGoal` of parser.ts. -/
def parseGoal (st : ParserState) : Except String (String × ParserState) := do
  let (_, st) ← consume st .GOAL "Expected 'цель'"
  let (goalTok, st) ← consume st .STRING "Expected goal description"
  let (_, st) ← consume st .SEMICOLON "Expected ';' after goal"
  .ok (goalTok.value, st)

/-- The `while (this.match(IMPORT))` loop of `parseImports`. -/
def parseImportsLoop :
    Nat → ParserState → List ImportNode → Except String (List ImportNode × ParserState)
  | 0, st, acc => .ok (acc, st)
  | fuel + 1, st, acc =>
      let (m, st') := st.matchTok .IMPORT
      if m then do
        let importTok := st'.previous
        let (nameTok, st') ← consume st' .IDENTIFIER "Expected module name"
        let (_, st') ← consume st' .FROM "Expected 'из'"
        let (pathTok, st') ← consume st' .STRING "Expected module path"
        let (_, st') ← consume st' .SEMICOLON "Expected ';' after import"
        parseImportsLoop fuel st'
          (acc ++ [{ moduleName := nameTok.value, modulePath := pathTok.value
                   , line := importTok.line, column := importTok.column }])
      else .ok (acc, st')

/-- The do-while item loop of `parseExports`. -/
def parseExportsItems :
    Nat → ParserState → List String → Except String (List String × ParserState)
  | 0, st, acc => .ok (acc, st)
  | fuel + 1, st, acc => do
      let (idTok, st) ← consume st .IDENTIFIER "Expected exported node identifier"
      let acc := acc ++ [idTok.value]
      let (m, st) := st.matchTok .COMMA
      if m then parseExportsItems fuel st acc else .ok (acc, st)

/-- `parseExports` of parser.ts. -/
def parseExports (fuel : Nat) (st : ParserState) :
    Except String (List String × ParserState) := do
  let (_, st) ← consume st .LEFT_BRACKET "Expected '[' after 'экспорт'"
  let (acc, st) ←
    if st.checkTok .RIGHT_BRACKET then pure (([] : List String), st)
    else parseExportsItems fuel st []
  let (_, st) ← consume st .RIGHT_BRACKET "] expected after export list"
  let (_, st) ← consume st .SEMICOLON "Expected ';' after export list"
  .ok (acc, st)

/-- `parseQuest` of parser.ts. -/
def parseQuest (fuel : Nat) (st : ParserState) :
    Except String (QuestProgram × ParserState) := do
  let (questToken, st) ← consume st .QUEST "Expected 'квест'"
  let (nameTok, st) ← consume st .IDENTIFIER "Expected quest name"
  let (_, st) ← consume st .SEMICOLON "Expected ';' after quest name"
  let (goal, st) ← parseGoal st
  let (imports, st) ← parseImportsLoop fuel st []
  let (graph, st) ← parseGraph fuel st
  let (_, st) ← consume st .END "Expected 'конец'"
  let (_, st) ← consume st .SEMICOLON "Expected ';' after 'конец'"
  .ok ({ name := nameTok.value, goal := goal, graph := graph, imports := imports
       , line := questToken.line, column := questToken.column }, st)

/-- The body loop of `parseModule`: imports, node blocks and export lists in
any order until EOF. -/
def parseModuleLoop :
    Nat → ParserState → List (String × NodeDefinition) → List String → List ImportNode →
    Except String ((List (String × NodeDefinition) × List String × List ImportNode) × ParserState)
  | 0, st, nodes, exps, imps => .ok ((nodes, exps, imps), st)
  | fuel + 1, st, nodes, exps, imps =>
      if !st.isAtEnd then
        let (m, st') := st.matchTok .IMPORT
        if m then do
          let st' := { st' with current := st'.current - 1 }
          let (more, st') ← parseImportsLoop fuel st' []
          parseModuleLoop fuel st' nodes exps (imps ++ more)
        else
          let (m2, st') := st.matchTok .NODES
          if m2 then do
            let (nodes, st') ← parseNodes fuel st' nodes
            parseModuleLoop fuel st' nodes exps imps
          else
            let (m3, st') := st.matchTok .EXPORT
            if m3 then do
              let (e, st') ← parseExports fuel st'
              parseModuleLoop fuel st' nodes e imps
            else if st.checkTok .EOF then .ok ((nodes, exps, imps), st)
            else
              .error ("Unexpected token in module: " ++ st.peek.type.text
                ++ " at " ++ toString st.peek.line ++ ":" ++ toString st.peek.column)
      else .ok ((nodes, exps, imps), st)

/-- `parseModule` of parser.ts. -/
def parseModule (fuel : Nat) (st : ParserState) :
    Except String (ModuleNode × ParserState) := do
  let (moduleToken, st) ← consume st .MODULE "Expected 'модуль'"
  let (nameTok, st) ← consume st .IDENTIFIER "Expected module name"
  let (_, st) ← consume st .SEMICOLON "Expected ';' after module name"
  let ((nodes, exps, imps), st) ← parseModuleLoop fuel st [] [] []
  .ok ({ name := nameTok.value, nodes := nodes, exports := exps, imports := imps
       , line := moduleToken.line, column := moduleToken.column }, st)

/-- `parseAny` of parser.ts. -/
def parseAny (fuel : Nat) (st : ParserState) :
    Except String (ParsedAny × ParserState) :=
  if st.checkTok .MODULE then
    (parseModule fuel st).map (fun r => (.moduleResult r.1, r.2))
  else
    (parseQuest fuel st).map (fun r => (.questResult r.1, r.2))

/-- The Parser constructor's comment/whitespace filter. -/
def filterTokens (tokens : List Token) : List Token :=
  tokens.filter (fun t => t.type ≠ .COMMENT ∧ t.type ≠ .WHITESPACE)

/-- `new Parser(tokens).parse()`: filter, then parse a quest program. -/
def Parser.parse (tokens : List Token) : Except String QuestProgram :=
  let ts := filterTokens tokens
  (parseQuest (ts.length + 1) { tokens := ts, current := 0 }).map (fun r => r.1)

/-- `new Parser(tokens).parseAny()`: filter, then parse a module or quest. -/
def Parser.parseAnyTokens (tokens : List Token) : Except String ParsedAny :=
  let ts := filterTokens tokens
  (parseAny (ts.length + 1) { tokens := ts, current := 0 }).map (fun r => r.1)

/-! ## Module loader (module-loader.ts)

The recursive `dfsParse` walk is embedded as an explicit job stack (the
worklist form of the same depth-first traversal: entering a file runs its
pre-marking, registration and recursion into imports, and a finish job
records the post-marking), processed with a fuel that the caller chooses;
running out of fuel is an error distinct from every source error, and the
claims show it unreachable for sufficient fuel. -/

/-- The host capability: `readFile` (fails when missing) and `resolve`. -/
structure ModuleHost where
  readFile : String → Except String String
  resolve : String → String → String

/-- VisitState from module-loader.ts. -/
inductive VisitState where
  | Unvisited | Visiting | Visited
  deriving Repr, DecidableEq

/-- LoadedModule from module-loader.ts. -/
structure LoadedModule where
  name : String
  file : String
  ast : ModuleNode
  deriving Repr, DecidableEq

/-- The mutable fields of the ModuleLoader class (`byFile`, `visit` are JS
Maps in insertion order), plus `reads`, the trace of files passed to
`host.readFile` by `dfsParse` — instrumentation recording how often each
module file is read and parsed. -/
structure LoaderState where
  byFile : List (String × LoadedModule)
  visit : List (String × VisitState)
  reads : List String
  deriving Repr, DecidableEq

/-- The empty registry a fresh ModuleLoader starts with. -/
def emptyLoader : LoaderState := { byFile := [], visit := [], reads := [] }

/-- `parseQuest` of module-loader.ts (and `QuestLang.parse` of index.ts):
lex then parse a quest program, lexer errors rendered to their message. -/
def parseQuestSource (src : String) : Except String QuestProgram :=
  match tokenize src with
  | .error e => .error e.render
  | .ok ts => Parser.parse ts

/-- `parseModule` of module-loader.ts: lex, `parseAny`, and require a
Module result. -/
def parseModuleSource (src : String) (file : String) : Except String ModuleNode :=
  match tokenize src with
  | .error e => .error e.render
  | .ok ts =>
    match Parser.parseAnyTokens ts with
    | .error e => .error e
    | .ok (.moduleResult m) => .ok m
    | .ok (.questResult _) => .error ("Expected module in " ++ file)

/-- One pending step of the depth-first walk: `enterFile` is a call
`dfsParse(file)`, `finishFile` is the trailing `visit.set(file, Visited)`
of a call already entered. -/
inductive DfsJob where
  | enterFile (file : String)
  | finishFile (file : String)
  deriving Repr, DecidableEq

/-- `dfsParse` of module-loader.ts over the job stack: a visited or
in-progress file ends the branch immediately; otherwise the file is marked
in-progress and, unless already registered, read, parsed, registered, and
its resolved imports entered depth-first before the file is marked done. -/
def dfsRun (host : ModuleHost) : Nat → List DfsJob → LoaderState → Except String LoaderState
  | 0, _, _ => .error "ModuleLoader fuel exhausted"
  | _ + 1, [], st => .ok st
  | fuel + 1, .finishFile file :: rest, st =>
      dfsRun host fuel rest { st with visit := recordSet st.visit file .Visited }
  | fuel + 1, .enterFile file :: rest, st =>
      let state := (recordGet st.visit file).getD .Unvisited
      if state = .Visited then dfsRun host fuel rest st
      else if state = .Visiting then dfsRun host fuel rest st
      else
        let st := { st with visit := recordSet st.visit file .Visiting }
        if (recordGet st.byFile file).isSome then
          dfsRun host fuel (.finishFile file :: rest) st
        else
          match host.readFile file with
          | .error e => .error e
          | .ok src =>
            let st := { st with reads := st.reads ++ [file] }
            match parseModuleSource src file with
            | .error e => .error e
            | .ok ast =>
              let entry : LoadedModule := { name := ast.name, file := file, ast := ast }
              let st := { st with byFile := recordSet st.byFile file entry }
              dfsRun host fuel
                ((ast.imports.map (fun imp => DfsJob.enterFile (host.resolve file imp.modulePath)))
                  ++ .finishFile file :: rest) st

/-- A single `dfsParse(file)` call on a loader state. -/
def dfsParse (host : ModuleHost) (fuel : Nat) (file : String) (st : LoaderState) :
    Except String LoaderState :=
  dfsRun host fuel [.enterFile file] st

/-- `loadQuest` of module-loader.ts: parse the entry file, then walk each
of its imports depth-first (the successive `dfsParse` calls of the source
loop are the successive enter jobs of one run). -/
def loadQuest (host : ModuleHost) (fuel : Nat) (questFile : String) :
    Except String (QuestProgram × LoaderState) := do
  let source ← host.readFile questFile
  let program ← parseQuestSource source
  let st ← dfsRun host fuel
    (program.imports.map (fun imp => DfsJob.enterFile (host.resolve questFile imp.modulePath)))
    emptyLoader
  .ok (program, st)

/-- `resolveExport` of module-loader.ts: scan the registry in insertion
order for the first module with the declared name, then distinguish a
missing node from an unexported one. -/
def resolveExport (st : LoaderState) (moduleName nodeId : String) : Except String Unit :=
  match (st.byFile.map (fun p => p.2)).find? (fun m => m.ast.name = moduleName) with
  | some m =>
      if (recordGet m.ast.nodes nodeId).isSome = false then
        .error ("Module '" ++ moduleName ++ "' has no node '" ++ nodeId ++ "'")
      else if m.ast.exports.contains nodeId = false then
        .error ("Node '" ++ nodeId ++ "' is not exported by module '" ++ moduleName ++ "'")
      else .ok ()
  | none => .error ("Module '" ++ moduleName ++ "' not found")

/-- `getModuleByName` of module-loader.ts. -/
def getModuleByName (st : LoaderState) (name : String) : Option LoadedModule :=
  (st.byFile.map (fun p => p.2)).find? (fun m => m.ast.name = name)

/-- `validateModules` of module-loader.ts. -/
def validateModules (st : LoaderState) : Bool × List String :=
  let errors := (st.byFile.map (fun p => p.2)).flatMap (fun mod =>
    mod.ast.exports.filterMap (fun exp =>
      if (recordGet mod.ast.nodes exp).isSome then none
      else some ("Module " ++ mod.ast.name ++ ": exported node '" ++ exp
        ++ "' does not exist")))
  (errors.length = 0, errors)

/-! ## Interpreter (interpreter.ts) -/

/-- QuestState from interpreter.ts; the optional `endingTitle` is `none`
exactly when the source leaves the field undefined. -/
structure QuestState where
  currentNode : String
  history : List String
  isComplete : Bool
  endingTitle : Option String
  deriving Repr, DecidableEq

/-- ExecutionResult from interpreter.ts. -/
structure ExecutionResult where
  success : Bool
  newState : QuestState
  error : Option String
  deriving Repr, DecidableEq

/-- The fields of a QuestInterpreter instance: the program, the mutable
state, and the optional module registry built by the constructor. -/
structure Interp where
  program : QuestProgram
  currentState : QuestState
  moduleLoader : Option LoaderState
  deriving Repr, DecidableEq

/-- The initial QuestState the constructor (and `reset`) builds. -/
def initialState (program : QuestProgram) : QuestState :=
  { currentNode := program.graph.start, history := [], isComplete := false
  , endingTitle := none }

/-- The QuestInterpreter constructor: set the initial state and, when a file
path and host are supplied and the program has imports, run the module
loader (whose lexer/parser/IO failures propagate to the caller). -/
def QuestInterpreter.make (program : QuestProgram) (questFilePath : Option String)
    (host : Option ModuleHost) (fuel : Nat) : Except String Interp :=
  match questFilePath, host with
  | some path, some h =>
      if program.imports ≠ [] then do
        let (_, ld) ← loadQuest h fuel path
        .ok { program := program, currentState := initialState program
            , moduleLoader := some ld }
      else
        .ok { program := program, currentState := initialState program
            , moduleLoader := none }
  | _, _ =>
      .ok { program := program, currentState := initialState program
          , moduleLoader := none }

/-- `s.startsWith('@')` over the character list (the single-character
prefix test used for module-qualified references). -/
def startsWithAt (s : String) : Bool :=
  match s.toList with
  | c :: _ => c = '@'
  | [] => false

/-- `resolveNode` of interpreter.ts: a module-qualified `@Module.node`
reference is decomposed at the first dot and resolved through the module
registry; anything else is looked up in the program's node mapping. -/
def resolveNode (itp : Interp) (id : String) : Option NodeDefinition :=
  if startsWithAt id then
    let ref := id.drop 1
    match ref.toList.findIdx? (fun c => c = '.') with
    | none => none
    | some dot =>
      let moduleName := String.mk (ref.toList.take dot)
      let nodeId := String.mk (ref.toList.drop (dot + 1))
      match itp.moduleLoader with
      | none => none
      | some ld =>
        match resolveExport ld moduleName nodeId with
        | .error _ => none
        | .ok _ =>
          match getModuleByName ld moduleName with
          | none => none
          | some m => recordGet m.ast.nodes nodeId
  else recordGet itp.program.graph.nodes id

/-- `getCurrentNode` of interpreter.ts. -/
def getCurrentNode (itp : Interp) : Option NodeDefinition :=
  resolveNode itp itp.currentState.currentNode

/-- `getAvailableChoices` of interpreter.ts. -/
def getAvailableChoices (itp : Interp) : List OptionChoice :=
  match getCurrentNode itp with
  | some (.actionNode _ _ options _ _) => options
  | _ => []

/-- The `title` field read by the `(targetNode as EndingNode).title` cast;
only evaluated under the Ending guard. -/
def NodeDefinition.titleOrNone : NodeDefinition → Option String
  | .endingNode _ _ t _ _ => some t
  | _ => none

/-- `moveToNode` of interpreter.ts: an unresolvable target fails and leaves
the state alone; a resolvable one installs the brand-new state. -/
def moveToNode (itp : Interp) (nodeId : String) : ExecutionResult × Interp :=
  match resolveNode itp nodeId with
  | none =>
      ({ success := false, newState := itp.currentState
       , error := some ("Target node '" ++ nodeId ++ "' not found") }, itp)
  | some targetNode =>
      let newState : QuestState :=
        { currentNode := nodeId
        , history := itp.currentState.history ++ [itp.currentState.currentNode]
        , isComplete := targetNode.nodeType = .ending
        , endingTitle :=
            if targetNode.nodeType = .ending then targetNode.titleOrNone else none }
      ({ success := true, newState := newState, error := none },
       { itp with currentState := newState })

/-- `executeChoice` of interpreter.ts; the index is an arbitrary JavaScript
number, embedded as an integer. -/
def executeChoice (itp : Interp) (choiceIndex : Int) : ExecutionResult × Interp :=
  match getCurrentNode itp with
  | none =>
      ({ success := false, newState := itp.currentState
       , error := some ("Current node '" ++ itp.currentState.currentNode
           ++ "' not found") }, itp)
  | some currentNode =>
    match currentNode with
    | .actionNode _ _ options _ _ =>
        let choices := options
        if choiceIndex < 0 ∨ (choices.length : Int) ≤ choiceIndex then
          ({ success := false, newState := itp.currentState
           , error := some ("Invalid choice index: " ++ toString choiceIndex
               ++ ". Available choices: 0-" ++ toString ((choices.length : Int) - 1)) }, itp)
        else
          match choices.get? choiceIndex.toNat with
          | none =>
              ({ success := false, newState := itp.currentState
               , error := some ("Choice at index " ++ toString choiceIndex
                   ++ " is undefined") }, itp)
          | some choice => moveToNode itp choice.target
    | _ =>
        ({ success := false, newState := itp.currentState
         , error := some ("Cannot execute choice on node type '"
             ++ currentNode.nodeType.text ++ "'") }, itp)

/-- `reset` of interpreter.ts. -/
def resetInterp (itp : Interp) : Interp :=
  { itp with currentState := initialState itp.program }

/-- One pending `findPaths` call: node, path so far, and this branch's own
forked visited set. -/
structure PathFrame where
  nodeId : String
  currentPath : List String
  visited : List String
  deriving Repr, DecidableEq

/-- `findPaths` of interpreter.ts over an explicit frame stack (the
worklist form of the recursion; each recursive call of the source is one
frame, its `new Set(visited)` fork the frame's own copy of the set).
An Ending appends the accumulated path; otherwise the node joins the
visited set and one frame per outgoing edge is stacked in order. -/
def pathsRun (itp : Interp) :
    Nat → List PathFrame → List (List String) → Except String (List (List String))
  | 0, _, _ => .error "findPaths fuel exhausted"
  | _ + 1, [], allPaths => .ok allPaths
  | fuel + 1, fr :: rest, allPaths =>
    match resolveNode itp fr.nodeId with
    | none => pathsRun itp fuel rest allPaths
    | some node =>
      if fr.visited.contains fr.nodeId then pathsRun itp fuel rest allPaths
      else
        match node with
        | .endingNode .. => pathsRun itp fuel rest (allPaths ++ [fr.currentPath])
        | .actionNode _ _ options _ _ =>
            let visited := fr.visited ++ [fr.nodeId]
            pathsRun itp fuel
              ((options.map (fun o =>
                { nodeId := o.target, currentPath := fr.currentPath ++ [o.target]
                  , visited := visited : PathFrame })) ++ rest) allPaths
        | .initialNode _ _ transitions _ _ =>
            let visited := fr.visited ++ [fr.nodeId]
            pathsRun itp fuel
              ((transitions.map (fun t =>
                { nodeId := t, currentPath := fr.currentPath ++ [t]
                  , visited := visited : PathFrame })) ++ rest) allPaths

/-- `getAllPaths` of interpreter.ts at a caller-chosen fuel. -/
def getAllPaths (itp : Interp) (fuel : Nat) : Except String (List (List String)) :=
  pathsRun itp fuel
    [{ nodeId := itp.currentState.currentNode
     , currentPath := [itp.currentState.currentNode], visited := [] }] []

/-- `findReachableNodes` of interpreter.ts over an explicit stack: one
shared visited set across the whole traversal. -/
def reachableRun (itp : Interp) :
    Nat → List String → List String → List String
  | 0, _, reachable => reachable
  | _ + 1, [], reachable => reachable
  | fuel + 1, nodeId :: rest, reachable =>
    if reachable.contains nodeId then reachableRun itp fuel rest reachable
    else
      match resolveNode itp nodeId with
      | none => reachableRun itp fuel rest reachable
      | some node =>
        let reachable := reachable ++ [nodeId]
        match node with
        | .actionNode _ _ options _ _ =>
            reachableRun itp fuel ((options.map (fun o => o.target)) ++ rest) reachable
        | .initialNode _ _ transitions _ _ =>
            reachableRun itp fuel (transitions ++ rest) reachable
        | .endingNode .. => reachableRun itp fuel rest reachable

/-- The number of node definitions visible to `resolveNode`: the program's
own mapping plus every registered module's mapping. -/
def totalNodeCount (itp : Interp) : Nat :=
  itp.program.graph.nodes.length +
    (match itp.moduleLoader with
     | some ld => (ld.byFile.map (fun p => p.2.ast.nodes.length)).sum
     | none => 0)

/-- The number of outgoing edges (transitions and options) over all those
node definitions. -/
def totalEdgeCount (itp : Interp) : Nat :=
  let countEdges : NodeDefinition → Nat := fun n =>
    match n with
    | .initialNode _ _ ts _ _ => ts.length
    | .actionNode _ _ os _ _ => os.length
    | .endingNode .. => 0
  (itp.program.graph.nodes.map (fun p => countEdges p.2)).sum +
    (match itp.moduleLoader with
     | some ld => (ld.byFile.map (fun p =>
        (p.2.ast.nodes.map (fun q => countEdges q.2)).sum)).sum
     | none => 0)

/-- A fuel sufficient for `findReachableNodes`: every stacked node id is
either consumed without effect or adds a new resolvable node to the shared
visited set (stacking its edges once), so at most
`1 + totalNodeCount + totalEdgeCount` stack entries are ever processed. -/
def reachableFuel (itp : Interp) : Nat :=
  totalNodeCount itp + totalEdgeCount itp + 2

/-- The `isValid`/`errors` report shape. -/
structure ValidationResult where
  isValid : Bool
  errors : List String
  deriving Repr, DecidableEq

/-- The qualified-reference arm of `validate`'s dangling-target handling in
interpreter.ts, shared by the Action and Initial branches: the pushed error
message, given the message for a plain non-existent target. -/
def moduleRefError (itp : Interp) (target : String) (plainMsg : String) : String :=
  let ref := target.drop 1
  let dotIdx := ref.toList.findIdx? (fun c => c = '.')
  match itp.moduleLoader, dotIdx with
  | some ld, some dot =>
      let modName := String.mk (ref.toList.take dot)
      let nid := String.mk (ref.toList.drop (dot + 1))
      match resolveExport ld modName nid with
      | .ok _ => plainMsg
      | .error e => e
  | some _, none => "Invalid module reference '" ++ target ++ "'"
  | none, _ => plainMsg

/-- `validate` of interpreter.ts: the start-node check, then one dangling
reference check per Action option and Initial transition in declaration
order, then one unreachable error per node not visited by the shared-set
traversal from the start node. -/
def validateInterp (itp : Interp) : ValidationResult :=
  let startErrors :=
    if (resolveNode itp itp.program.graph.start).isSome then []
    else ["Start node '" ++ itp.program.graph.start ++ "' does not exist"]
  let refErrors := itp.program.graph.nodes.flatMap (fun p =>
    match p.2 with
    | .actionNode _ _ options _ _ =>
        options.filterMap (fun o =>
          if (resolveNode itp o.target).isSome then none
          else
            let plainMsg := "Node '" ++ p.1 ++ "' references non-existent target '"
              ++ o.target ++ "'"
            if startsWithAt o.target && itp.moduleLoader.isSome then
              some (moduleRefError itp o.target plainMsg)
            else some plainMsg)
    | .initialNode _ _ transitions _ _ =>
        transitions.filterMap (fun t =>
          if (resolveNode itp t).isSome then none
          else
            let plainMsg := "Initial node '" ++ p.1 ++ "' references non-existent transition '"
              ++ t ++ "'"
            if startsWithAt t && itp.moduleLoader.isSome then
              some (moduleRefError itp t plainMsg)
            else some plainMsg)
    | .endingNode .. => [])
  let reachable := reachableRun itp (reachableFuel itp) [itp.program.graph.start] []
  let unreachableErrors := (itp.program.graph.nodes.map (fun p => p.1)).filterMap
    (fun nodeId =>
      if reachable.contains nodeId then none
      else some ("Node '" ++ nodeId ++ "' is unreachable"))
  let errors := startErrors ++ refErrors ++ unreachableErrors
  { isValid := errors.length = 0, errors := errors }

/-! ## QuestLang facade (index.ts) -/

/-- `QuestLang.parse` of index.ts (the same lex-parse composition as the
loader's quest parse). -/
def parseSource (source : String) : Except String QuestProgram :=
  parseQuestSource source

/-- `QuestLang.interpret` of index.ts. -/
def interpretSource (source : String) (filePath : Option String)
    (host : Option ModuleHost) (fuel : Nat) : Except String Interp := do
  let ast ← parseSource source
  QuestInterpreter.make ast filePath host fuel

/-- `QuestLang.validate` of index.ts: interpret and validate inside a
try/catch whose catch folds the raised message into the report. -/
def validateSource (source : String) (filePath : Option String)
    (host : Option ModuleHost) (fuel : Nat) : ValidationResult :=
  match interpretSource source filePath host fuel with
  | .ok itp => validateInterp itp
  | .error e => { isValid := false, errors := [e] }

/-! ## Concrete fixtures used by witnesses and counterexamples -/

/-- An ending node with a fixed description and position. -/
def endN (id t : String) : NodeDefinition := .endingNode id "d" t 1 1

/-- An action node whose option texts equal their targets. -/
def actN (id : String) (ts : List String) : NodeDefinition :=
  .actionNode id "d" (ts.map (fun t => { text := t, target := t, line := 1, column := 1 })) 1 1

/-- An initial node. -/
def iniN (id : String) (ts : List String) : NodeDefinition := .initialNode id "d" ts 1 1

/-- Start leading to an Action with two options targeting two distinct
Ending nodes (spec example scenario 1). -/
def diamondProg : QuestProgram :=
  { name := "q", goal := "g"
  , graph :=
      { nodes := [("s", iniN "s" ["c"]), ("c", actN "c" ["e1", "e2"])
                 , ("e1", endN "e1" "t1"), ("e2", endN "e2" "t2")]
      , start := "s", line := 1, column := 1 }
  , imports := [], line := 1, column := 1 }

/-- An interpreter over `diamondProg` with no module loader. -/
def diamondItp : Interp :=
  { program := diamondProg, currentState := initialState diamondProg, moduleLoader := none }

/-- A true diamond: two branches reconverging on one shared Ending. -/
def reconvergeProg : QuestProgram :=
  { name := "q", goal := "g"
  , graph :=
      { nodes := [("s", iniN "s" ["c"]), ("c", actN "c" ["a", "b"])
                 , ("a", actN "a" ["e"]), ("b", actN "b" ["e"]), ("e", endN "e" "t")]
      , start := "s", line := 1, column := 1 }
  , imports := [], line := 1, column := 1 }

/-- An interpreter over `reconvergeProg`. -/
def reconvergeItp : Interp :=
  { program := reconvergeProg, currentState := initialState reconvergeProg
  , moduleLoader := none }

/-- A program whose only node is an Action with one dangling option. -/
def danglingProg : QuestProgram :=
  { name := "q", goal := "g"
  , graph := { nodes := [("a", actN "a" ["missing"])], start := "a", line := 1, column := 1 }
  , imports := [], line := 1, column := 1 }

/-- An interpreter over `danglingProg`. -/
def danglingItp : Interp :=
  { program := danglingProg, currentState := initialState danglingProg, moduleLoader := none }

/-! ## Claim theorems -/

/-- Claim C9: `reset()` from any reachable state, any number of times,
yields exactly the state with the program's start node, empty history,
incomplete, and no ending title; the result does not depend on the state it
was called from. -/
theorem C9_reset_idempotent (itp : Interp) :
    (resetInterp itp).currentState =
      { currentNode := itp.program.graph.start, history := [], isComplete := false
      , endingTitle := none }
    ∧ resetInterp (resetInterp itp) = resetInterp itp
    ∧ (∀ s : QuestState, resetInterp { itp with currentState := s } = resetInterp itp) := by
  refine ⟨rfl, rfl, fun s => rfl⟩

/-- Claim C1: an unresolvable `moveToNode` target fails with an error and
leaves the interpreter unchanged; a resolvable one succeeds and the new
state has the target as current node, the previous history with exactly the
previous current node appended, completion exactly for Ending targets, and
the Ending's title as ending title (cleared otherwise). -/
theorem C1_moveToNode_spec (itp : Interp) (targetId : String) :
    (resolveNode itp targetId = none →
      (moveToNode itp targetId).1.success = false
      ∧ (moveToNode itp targetId).1.error =
          some ("Target node '" ++ targetId ++ "' not found")
      ∧ (moveToNode itp targetId).2 = itp)
    ∧ (∀ target, resolveNode itp targetId = some target →
      (moveToNode itp targetId).1.success = true
      ∧ (moveToNode itp targetId).2.currentState.currentNode = targetId
      ∧ (moveToNode itp targetId).2.currentState.history =
          itp.currentState.history ++ [itp.currentState.currentNode]
      ∧ (moveToNode itp targetId).2.currentState.history.length =
          itp.currentState.history.length + 1
      ∧ ((moveToNode itp targetId).2.currentState.isComplete = true ↔
          target.nodeType = .ending)
      ∧ (∀ i d t l c, target = .endingNode i d t l c →
          (moveToNode itp targetId).2.currentState.endingTitle = some t)
      ∧ (target.nodeType ≠ .ending →
          (moveToNode itp targetId).2.currentState.endingTitle = none)
      ∧ (moveToNode itp targetId).1.newState = (moveToNode itp targetId).2.currentState
      ∧ (moveToNode itp targetId).2.program = itp.program) := by
  constructor
  · intro h
    simp [moveToNode, h]
  · intro target h
    refine ⟨?_, ?_, ?_, ?_, ?_, ?_, ?_, ?_, ?_⟩ <;>
      simp [moveToNode, h, List.length_append]
    · intro i d t l c ht
      subst ht
      simp [NodeDefinition.nodeType, NodeDefinition.titleOrNone]
    · intro ht
      simp [ht]

/-- Claim C1 witness: moving to the resolvable ending node `e1` of the
diamond fixture. -/
theorem C1_moveToNode_witness :
    (moveToNode diamondItp "e1").1.success = true
    ∧ (moveToNode diamondItp "e1").2.currentState.history = ["s"] := by
  have h := (C1_moveToNode_spec diamondItp "e1").2 (endN "e1" "t1") rfl
  exact ⟨h.1, by rw [h.2.2.1]; rfl⟩

/-- A program whose node mapping holds a key spelled like a qualified
reference; `resolveNode` routes such ids to the module branch, never the
local mapping. -/
def atProg : QuestProgram :=
  { name := "q", goal := "g"
  , graph := { nodes := [("@M.n", endN "@M.n" "t")], start := "@M.n", line := 1, column := 1 }
  , imports := [], line := 1, column := 1 }

/-- An interpreter over `atProg` without a module loader. -/
def atItp : Interp :=
  { program := atProg, currentState := initialState atProg, moduleLoader := none }

/-- Claim C10 counterexample: the id `@M.n` is present in the program's
node mapping, yet `moveToNode` fails on it (the `@` prefix diverts
resolution to the absent module registry). -/
theorem C10_counterexample :
    recordGet atItp.program.graph.nodes "@M.n" = some (endN "@M.n" "t")
    ∧ (moveToNode atItp "@M.n").1.success = false
    ∧ (moveToNode atItp "@M.n").1.error = some "Target node '@M.n' not found" :=
  ⟨rfl, rfl, rfl⟩

/-- Claim C10 as amended: `moveToNode` succeeds for every node id present
in the program's node mapping that does not begin with `@`, from any
interpreter state whatsoever — no transition or option of the current node
is consulted, so arbitrary jumps between existing nodes are possible. -/
theorem C10_moveToNode_amended (itp : Interp) (targetId : String) (node : NodeDefinition)
    (h1 : startsWithAt targetId = false)
    (h2 : recordGet itp.program.graph.nodes targetId = some node) :
    (moveToNode itp targetId).1.success = true := by
  have hres : resolveNode itp targetId = some node := by
    simp [resolveNode, h1, h2]
  simp [moveToNode, hres]

/-- Claim C10 witness: jumping from the completed ending `e1` back to the
start node `s`, against no declared edge. -/
theorem C10_moveToNode_witness :
    (moveToNode
      { diamondItp with currentState :=
          { currentNode := "e1", history := ["s", "c"], isComplete := true
          , endingTitle := some "t1" } } "s").1.success = true :=
  C10_moveToNode_amended _ "s" (iniN "s" ["c"]) rfl rfl

/-- Claim C2 counterexample: the current node of `danglingItp` is an Action
node with one option, the index 0 satisfies `0 ≤ 0 < 1`, yet
`executeChoice 0` fails, because the chosen option's target does not
resolve — success is not equivalent to the index being in range. -/
theorem C2_counterexample :
    getCurrentNode danglingItp =
      some (.actionNode "a" "d"
        [{ text := "missing", target := "missing", line := 1, column := 1 }] 1 1)
    ∧ (executeChoice danglingItp 0).1.success = false
    ∧ (executeChoice danglingItp 0).1.error = some "Target node 'missing' not found" :=
  ⟨rfl, rfl, rfl⟩

/-- Claim C2 as amended: on an Action current node with options `os`,
`executeChoice i` succeeds exactly when `0 ≤ i < os.length` AND the chosen
option's target resolves; an out-of-range index leaves the state unchanged
with the error naming the range `0..os.length-1`; a non-Action current node
leaves the state unchanged with the error naming the node type. -/
theorem C2_executeChoice_amended (itp : Interp) (i : Int) :
    (∀ id d os l c, getCurrentNode itp = some (.actionNode id d os l c) →
      ((executeChoice itp i).1.success = true ↔
        (0 ≤ i ∧ i < (os.length : Int)
          ∧ ∃ o, os.get? i.toNat = some o ∧ (resolveNode itp o.target).isSome))
      ∧ ((i < 0 ∨ (os.length : Int) ≤ i) →
          (executeChoice itp i).2 = itp
          ∧ (executeChoice itp i).1.newState = itp.currentState
          ∧ (executeChoice itp i).1.error =
              some ("Invalid choice index: " ++ toString i
                ++ ". Available choices: 0-" ++ toString ((os.length : Int) - 1))))
    ∧ (∀ node, getCurrentNode itp = some node → node.nodeType ≠ .action →
        (executeChoice itp i).2 = itp
        ∧ (executeChoice itp i).1.newState = itp.currentState
        ∧ (executeChoice itp i).1.error =
            some ("Cannot execute choice on node type '" ++ node.nodeType.text ++ "'")) := by
  constructor
  · intro id d os l c h
    by_cases hrange : i < 0 ∨ (os.length : Int) ≤ i
    · refine ⟨?_, fun _ => ?_⟩
      · have hexec :
            executeChoice itp i =
              ({ success := false, newState := itp.currentState
               , error := some ("Invalid choice index: " ++ toString i
                   ++ ". Available choices: 0-" ++ toString ((os.length : Int) - 1)) }, itp) := by
          simp only [executeChoice, h, if_pos hrange]
        rw [hexec]
        constructor
        · intro hfalse
          simp at hfalse
        · rintro ⟨h0', hlt', -⟩
          exfalso
          rcases hrange with hneg | hge <;> omega
      · simp only [executeChoice, h, if_pos hrange]
        exact ⟨trivial, trivial, trivial⟩
    · push_neg at hrange
      obtain ⟨h0, hlt⟩ := hrange
      have hlt' : i.toNat < os.length := by omega
      obtain ⟨o, ho⟩ : ∃ o, os.get? i.toNat = some o := by
        rw [List.get?_eq_getElem?]
        exact ⟨os[i.toNat], List.getElem?_eq_getElem hlt'⟩
      have hnr : ¬(i < 0 ∨ (os.length : Int) ≤ i) := by omega
      have hexec : executeChoice itp i = moveToNode itp o.target := by
        simp only [executeChoice, h, if_neg hnr, ho]
      refine ⟨?_, fun hc => absurd hc hnr⟩
      rw [hexec]
      cases hres : resolveNode itp o.target with
      | none =>
          have hmv : moveToNode itp o.target =
              ({ success := false, newState := itp.currentState
               , error := some ("Target node '" ++ o.target ++ "' not found") }, itp) := by
            simp only [moveToNode, hres]
          rw [hmv]
          constructor
          · intro hfalse
            simp at hfalse
          · rintro ⟨-, -, o', ho', hsome⟩
            rw [ho] at ho'
            injection ho' with he
            subst he
            rw [hres] at hsome
            simp at hsome
      | some target =>
          have hmv : (moveToNode itp o.target).1.success = true := by
            simp only [moveToNode, hres]
          rw [hmv]
          simp only [true_iff]
          exact ⟨h0, hlt, o, ho, by rw [hres]; rfl⟩
  · intro node h hna
    cases node with
    | actionNode id d os l c => exact absurd rfl hna
    | initialNode id d ts l c =>
        simp only [executeChoice, h]
        exact ⟨trivial, trivial, trivial⟩
    | endingNode id d t l c =>
        simp only [executeChoice, h]
        exact ⟨trivial, trivial, trivial⟩

/-- Claim C2 witness: out-of-range index 5 on the one-option Action node,
and a non-Action error on the diamond's initial node. -/
theorem C2_executeChoice_witness :
    ((executeChoice danglingItp 5).2 = danglingItp
      ∧ (executeChoice danglingItp 5).1.error =
          some "Invalid choice index: 5. Available choices: 0-0")
    ∧ (executeChoice diamondItp 0).1.error =
        some "Cannot execute choice on node type 'начальный'" := by
  have h1 := ((C2_executeChoice_amended danglingItp 5).1 "a" "d"
    [{ text := "missing", target := "missing", line := 1, column := 1 }] 1 1 rfl).2
    (Or.inr (by decide))
  have h2 := (C2_executeChoice_amended diamondItp 0).2 (iniN "s" ["c"]) rfl (by decide)
  exact ⟨⟨h1.1, h1.2.2⟩, h2.2.2⟩

/-- A module named M with no nodes and no exports. -/
def emptyModM : ModuleNode :=
  { name := "M", nodes := [], exports := [], imports := [], line := 1, column := 1 }

/-- A module also named M that holds and exports the node `n`. -/
def fullModM : ModuleNode :=
  { name := "M", nodes := [("n", endN "n" "t")], exports := ["n"], imports := []
  , line := 1, column := 1 }

/-- A registry holding two distinct files both declaring module name M: the
earlier registered one empty, the later one exporting `n`. -/
def dupNameSt : LoaderState :=
  { byFile := [("/f1", { name := "M", file := "/f1", ast := emptyModM })
             , ("/f2", { name := "M", file := "/f2", ast := fullModM })]
  , visit := [], reads := [] }

/-- Claim C6 counterexample: some registered module named M has `n` in its
mapping and export list, yet `resolveExport "M" "n"` is an error — only
the first registered module with the name is consulted. -/
theorem C6_counterexample :
    (∃ m, m ∈ dupNameSt.byFile.map (fun p => p.2)
       ∧ m.ast.name = "M"
       ∧ (recordGet m.ast.nodes "n").isSome = true
       ∧ m.ast.exports.contains "n" = true)
    ∧ resolveExport dupNameSt "M" "n" = .error "Module 'M' has no node 'n'" := by
  refine ⟨⟨{ name := "M", file := "/f2", ast := fullModM }, ?_, rfl, rfl, rfl⟩, rfl⟩
  simp [dupNameSt]

/-- A module named M holding `secret` but exporting nothing. -/
def secretMod : ModuleNode :=
  { name := "M", nodes := [("secret", endN "secret" "t")], exports := [], imports := []
  , line := 1, column := 1 }

/-- A registry holding only `secretMod`. -/
def secretSt : LoaderState :=
  { byFile := [("/m", { name := "M", file := "/m", ast := secretMod })]
  , visit := [], reads := [] }

/-- A quest whose start node transitions to the non-exported `@M.secret`. -/
def secretProg : QuestProgram :=
  { name := "q", goal := "g"
  , graph := { nodes := [("s", iniN "s" ["@M.secret"])], start := "s", line := 1, column := 1 }
  , imports := [{ moduleName := "M", modulePath := "m", line := 1, column := 1 }]
  , line := 1, column := 1 }

/-- An interpreter over `secretProg` with the `secretSt` registry. -/
def secretItp : Interp :=
  { program := secretProg, currentState := initialState secretProg
  , moduleLoader := some secretSt }

/-- Claim C6 as amended: `resolveExport(moduleName, nodeId)` is Ok exactly
when the first registered module with that declared name (registration
order) has the node and exports it; relative to that first module the
error distinguishes module-not-found, node-not-found and not-exported; and
a quest referencing a non-exported node fails validation with the
not-exported error rather than a does-not-exist error. -/
theorem C6_resolveExport_amended (st : LoaderState) (moduleName nodeId : String) :
    (resolveExport st moduleName nodeId = .ok () ↔
      (∃ m, getModuleByName st moduleName = some m
        ∧ (recordGet m.ast.nodes nodeId).isSome = true
        ∧ m.ast.exports.contains nodeId = true))
    ∧ (getModuleByName st moduleName = none →
        resolveExport st moduleName nodeId =
          .error ("Module '" ++ moduleName ++ "' not found"))
    ∧ (∀ m, getModuleByName st moduleName = some m →
        recordGet m.ast.nodes nodeId = none →
        resolveExport st moduleName nodeId =
          .error ("Module '" ++ moduleName ++ "' has no node '" ++ nodeId ++ "'"))
    ∧ (∀ m, getModuleByName st moduleName = some m →
        (recordGet m.ast.nodes nodeId).isSome = true →
        m.ast.exports.contains nodeId = false →
        resolveExport st moduleName nodeId =
          .error ("Node '" ++ nodeId ++ "' is not exported by module '" ++ moduleName ++ "'"))
    ∧ validateInterp secretItp =
        { isValid := false, errors := ["Node 'secret' is not exported by module 'M'"] } := by
  refine ⟨?_, ?_, ?_, ?_, rfl⟩
  · cases hfind : (st.byFile.map (fun p => p.2)).find? (fun m => m.ast.name = moduleName) with
    | none =>
        simp only [resolveExport, getModuleByName, hfind]
        constructor
        · intro hfalse
          cases hfalse
        · rintro ⟨m, hm, -⟩
          cases hm
    | some m =>
        simp only [resolveExport, getModuleByName, hfind]
        split_ifs with h1 h2
        · constructor
          · intro hok
            cases hok
          · rintro ⟨m', hm', hsome, -⟩
            injection hm' with he
            subst he
            rw [h1] at hsome
            cases hsome
        · constructor
          · intro hok
            cases hok
          · rintro ⟨m', hm', -, hexp⟩
            injection hm' with he
            subst he
            rw [h2] at hexp
            cases hexp
        · refine ⟨fun _ => ⟨m, rfl, ?_, ?_⟩, fun _ => rfl⟩
          · cases hh : (recordGet m.ast.nodes nodeId).isSome
            · exact absurd hh h1
            · rfl
          · cases hh : m.ast.exports.contains nodeId
            · exact absurd hh h2
            · rfl
  · intro h
    simp only [getModuleByName] at h
    simp [resolveExport, h]
  · intro m hm hnone
    simp only [getModuleByName] at hm
    simp [resolveExport, hm, hnone]
  · intro m hm hsome hexp
    simp only [getModuleByName] at hm
    simp only [resolveExport, hm]
    rw [hsome, hexp]
    rfl

/-- Claim C6 witness: in the one-module registry the not-exported and
not-found errors are produced at concrete inputs. -/
theorem C6_resolveExport_witness :
    resolveExport secretSt "M" "secret" =
      .error "Node 'secret' is not exported by module 'M'"
    ∧ resolveExport secretSt "X" "secret" = .error "Module 'X' not found"
    ∧ resolveExport secretSt "M" "other" = .error "Module 'M' has no node 'other'" := by
  refine ⟨?_, ?_, ?_⟩
  · exact (C6_resolveExport_amended secretSt "M" "secret").2.2.2.1
      { name := "M", file := "/m", ast := secretMod } rfl rfl rfl
  · exact (C6_resolveExport_amended secretSt "X" "secret").2.1 rfl
  · exact (C6_resolveExport_amended secretSt "M" "other").2.2.1
      { name := "M", file := "/m", ast := secretMod } rfl rfl

/-- Claim C7: the `validate` entry point is a total function; when parsing
(or any stage of interpreter construction, including lexing) fails with a
raised error, the result is `isValid = false` with that single error
message as the whole error list. -/
theorem C7_validate_total (source : String) (filePath : Option String)
    (host : Option ModuleHost) (fuel : Nat) :
    (∀ e, parseSource source = .error e →
      validateSource source filePath host fuel = { isValid := false, errors := [e] })
    ∧ (∀ e, interpretSource source filePath host fuel = .error e →
      validateSource source filePath host fuel = { isValid := false, errors := [e] }) := by
  constructor
  · intro e h
    have hi : interpretSource source filePath host fuel = .error e := by
      simp only [interpretSource, h]
      rfl
    simp only [validateSource, hi]
  · intro e h
    simp only [validateSource, h]

/-- Claim C7 witness: a truncated program and an unterminated string each
fold into a single-error invalid report. -/
theorem C7_validate_witness :
    validateSource "квест" none none 0 =
      { isValid := false, errors := ["Expected quest name. Got EOF at 1:6"] }
    ∧ validateSource "\n\n\"abc" none none 0 =
      { isValid := false, errors := ["Unterminated string at 3:1"] } := by
  constructor
  · exact (C7_validate_total "квест" none none 0).1 _ rfl
  · exact (C7_validate_total "\n\n\"abc" none none 0).1 _ rfl

/-- A successful `pathsRun` result is stable under extra fuel. -/
theorem pathsRun_mono (itp : Interp) :
    ∀ fuel ws acc r, pathsRun itp fuel ws acc = .ok r →
      pathsRun itp (fuel + 1) ws acc = .ok r := by
  intro fuel
  induction fuel with
  | zero =>
      intro ws acc r h
      simp [pathsRun] at h
  | succ n ih =>
      intro ws acc r h
      cases ws with
      | nil => exact h
      | cons fr rest =>
          rw [pathsRun] at h ⊢
          cases hres : resolveNode itp fr.nodeId with
          | none =>
              simp only [hres] at h ⊢
              exact ih _ _ _ h
          | some node =>
              simp only [hres] at h ⊢
              by_cases hv : fr.visited.contains fr.nodeId
              · rw [if_pos hv] at h ⊢
                exact ih _ _ _ h
              · rw [if_neg hv] at h ⊢
                cases node with
                | endingNode i d t l c => exact ih _ _ _ h
                | actionNode i d os l c => exact ih _ _ _ h
                | initialNode i d ts l c => exact ih _ _ _ h

/-- A successful `pathsRun` result is stable under any larger fuel. -/
theorem pathsRun_of_le (itp : Interp) (f1 f2 : Nat) (h : f1 ≤ f2)
    (ws : List PathFrame) (acc r : List (List String))
    (hr : pathsRun itp f1 ws acc = .ok r) : pathsRun itp f2 ws acc = .ok r := by
  induction f2, h using Nat.le_induction with
  | base => exact hr
  | succ m hm ihm => exact pathsRun_mono itp m ws acc r ihm

/-- Claim C5: on the fixture whose start leads to an Action node with two
options targeting two distinct Ending nodes, `getAllPaths` returns exactly
the two paths, one per Ending, at every sufficient fuel; on a reconverging
diamond sharing one Ending the per-edge forked visited set still yields
both distinct paths (a shared set would collapse them); the fixture also
validates cleanly. -/
theorem C5_getAllPaths_diamond :
    (∀ fuel, 10 ≤ fuel →
      getAllPaths diamondItp fuel = .ok [["s", "c", "e1"], ["s", "c", "e2"]])
    ∧ (∀ fuel, 12 ≤ fuel →
      getAllPaths reconvergeItp fuel = .ok [["s", "c", "a", "e"], ["s", "c", "b", "e"]])
    ∧ validateInterp diamondItp = { isValid := true, errors := [] } := by
  refine ⟨fun fuel h => ?_, fun fuel h => ?_, rfl⟩
  · exact pathsRun_of_le diamondItp 10 fuel h _ _ _ rfl
  · exact pathsRun_of_le reconvergeItp 12 fuel h _ _ _ rfl

/-- Claim C5 witness: both enumerations at their base fuels. -/
theorem C5_getAllPaths_witness :
    getAllPaths diamondItp 10 = .ok [["s", "c", "e1"], ["s", "c", "e2"]]
    ∧ getAllPaths reconvergeItp 12 = .ok [["s", "c", "a", "e"], ["s", "c", "b", "e"]] :=
  ⟨(C5_getAllPaths_diamond).1 10 (by decide),
   (C5_getAllPaths_diamond).2.1 12 (by decide)⟩

/-- The token list of a successful tokenize (used to state witnesses). -/
def toksOf (s : String) : List Token := ((tokenize s).toOption).getD []

/-- Claim C8: `tokenize` either returns a token sequence terminated by an
EOF token, or fails with one of exactly two errors — unexpected character
or unterminated string — each carrying the line and column of the
offending start position (shown at the spec's concrete examples: the
string opened at line 3 column 1, one opened mid-line at column 4, and an
unrecognized character). -/
theorem C8_tokenize_failures :
    (∀ src toks, tokenize src = .ok toks →
      ∃ t, toks.getLast? = some t ∧ t.type = .EOF)
    ∧ (∀ src e, tokenize src = .error e →
        (∃ c l k, e = .unexpectedChar c l k) ∨ (∃ l k, e = .unterminatedString l k))
    ∧ tokenize "\n\n\"abc" = .error (.unterminatedString 3 1)
    ∧ tokenize "ab \"xy" = .error (.unterminatedString 1 4)
    ∧ tokenize "#" = .error (.unexpectedChar '#' 1 1)
    ∧ (LexError.unterminatedString 3 1).render = "Unterminated string at 3:1"
    ∧ (LexError.unexpectedChar '#' 1 1).render = "Unexpected character: # at 1:1" := by
  refine ⟨?_, ?_, rfl, rfl, rfl, rfl, rfl⟩
  · intro src toks h
    unfold tokenize at h
    cases hloop : tokenizeLoop (String.toList src).length
        { chars := src.toList, position := 0, line := 1, column := 1, tokens := [] } with
    | error e =>
        rw [hloop] at h
        cases h
    | ok st =>
        rw [hloop] at h
        injection h with he
        refine ⟨{ type := .EOF, value := ""
                , line := orElseNat none st.line, column := orElseNat none st.column
                , start := orElseNat none st.position, endPos := st.position }, ?_, rfl⟩
        rw [← he]
        exact List.getLast?_concat _
  · intro src e h
    cases e with
    | unexpectedChar c l k => exact Or.inl ⟨c, l, k, rfl⟩
    | unterminatedString l k => exact Or.inr ⟨l, k, rfl⟩

/-- Claim C8 witness: the EOF-termination clause applied to a concrete
successfully lexed source. -/
theorem C8_tokenize_witness :
    ∃ t, (toksOf "квест Имя;").getLast? = some t ∧ t.type = TokenType.EOF :=
  C8_tokenize_failures.1 "квест Имя;" (toksOf "квест Имя;") rfl

/-! ## Module-loader analysis (claim C4)

The depth-first walk is analysed through a cost function: every processed
job costs one fuel unit, and every file not yet marked in-progress or done
may later contribute one enter job per import plus its own registration and
finish. -/

/-- `recordGet` of the empty record. -/
theorem recordGet_nil {α : Type} (k : String) : recordGet ([] : List (String × α)) k = none := rfl

theorem recordGet_cons_pos {α : Type} (p : String × α) (rest : List (String × α))
    (k : String) (h : p.1 = k) : recordGet (p :: rest) k = some p.2 := by
  rw [recordGet, List.find?_cons_of_pos _ (by simpa using h)]
  rfl

theorem recordGet_cons_neg {α : Type} (p : String × α) (rest : List (String × α))
    (k : String) (h : ¬p.1 = k) : recordGet (p :: rest) k = recordGet rest k := by
  rw [recordGet, List.find?_cons_of_neg _ (by simpa using h)]
  rfl

theorem recordGet_recordSet {α : Type} (m : List (String × α)) (k k' : String) (v : α) :
    recordGet (recordSet m k v) k' = if k' = k then some v else recordGet m k' := by
  induction m with
  | nil =>
      by_cases h : k' = k
      · subst h
        rw [recordSet, recordGet_cons_pos _ _ _ rfl, if_pos rfl]
      · rw [recordSet, recordGet_cons_neg _ _ _ (fun hh => h hh.symm), if_neg h]
  | cons p rest ih =>
      by_cases hp : p.1 = k
      · rw [recordSet, if_pos hp]
        by_cases h : k' = k
        · subst h
          rw [recordGet_cons_pos _ _ _ rfl, if_pos rfl]
        · rw [recordGet_cons_neg _ _ _ (fun hh => h hh.symm), if_neg h,
            recordGet_cons_neg _ _ _ (fun hh => h (hp.symm.trans hh).symm)]
      · rw [recordSet, if_neg hp]
        by_cases hpk' : p.1 = k'
        · have h : ¬k' = k := fun hh => hp ((hpk'.trans hh))
          rw [recordGet_cons_pos _ _ _ hpk', if_neg h, recordGet_cons_pos _ _ _ hpk']
        · rw [recordGet_cons_neg _ _ _ hpk', recordGet_cons_neg _ _ _ hpk', ih]

theorem recordGet_isSome_iff_mem {α : Type} (m : List (String × α)) (k : String) :
    (recordGet m k).isSome = true ↔ k ∈ m.map (fun p => p.1) := by
  induction m with
  | nil => simp [recordGet]
  | cons p rest ih =>
      by_cases hp : p.1 = k
      · rw [recordGet_cons_pos _ _ _ hp]
        simp [hp]
      · rw [recordGet_cons_neg _ _ _ hp]
        simp only [List.map_cons, List.mem_cons]
        rw [ih]
        constructor
        · exact Or.inr
        · rintro (h | h)
          · exact absurd h.symm hp
          · exact h

theorem recordSet_keys_of_none {α : Type} (m : List (String × α)) (k : String) (v : α)
    (h : recordGet m k = none) :
    (recordSet m k v).map (fun p => p.1) = m.map (fun p => p.1) ++ [k] := by
  induction m with
  | nil => simp [recordSet]
  | cons p rest ih =>
      by_cases hp : p.1 = k
      · rw [recordGet_cons_pos _ _ _ hp] at h
        cases h
      · rw [recordGet_cons_neg _ _ _ hp] at h
        rw [recordSet, if_neg hp]
        simp [ih h]

theorem recordSet_keys_of_some {α : Type} (m : List (String × α)) (k : String) (v : α)
    (h : (recordGet m k).isSome = true) :
    (recordSet m k v).map (fun p => p.1) = m.map (fun p => p.1) := by
  induction m with
  | nil => rw [recordGet_nil] at h; cases h
  | cons p rest ih =>
      by_cases hp : p.1 = k
      · rw [recordSet, if_pos hp]
        simp [hp]
      · rw [recordGet_cons_neg _ _ _ hp] at h
        rw [recordSet, if_neg hp]
        simp [ih h]

/-- The read-and-parse composition `dfsParse` applies to a file before
registering it. -/
def readAndParse (host : ModuleHost) (f : String) : Except String ModuleNode :=
  match host.readFile f with
  | .error e => .error e
  | .ok src => parseModuleSource src f

/-- The resolved import targets the walk follows out of a file. -/
def importsOf (host : ModuleHost) (f : String) : List String :=
  match readAndParse host f with
  | .ok ast => ast.imports.map (fun imp => host.resolve f imp.modulePath)
  | .error _ => []

/-- A file is marked when its tri-state marker is in-progress or done. -/
def markedB (visit : List (String × VisitState)) (f : String) : Bool :=
  match (recordGet visit f).getD .Unvisited with
  | .Visiting => true
  | .Visited => true
  | .Unvisited => false

/-- Weight of the files not yet marked: each may still cost one enter job
per import, one registration step and one finish job. -/
def unmarkedWeight (host : ModuleHost) :
    List String → List (String × VisitState) → Nat
  | [], _ => 0
  | f :: fs, visit =>
      (if markedB visit f then 0 else (importsOf host f).length + 2)
        + unmarkedWeight host fs visit

/-- Remaining cost of a job stack: one per pending job plus the weight of
the unmarked files. -/
def dfsCost (host : ModuleHost) (files : List String)
    (visit : List (String × VisitState)) (jobs : List DfsJob) : Nat :=
  jobs.length + unmarkedWeight host files visit

theorem markedB_recordSet (visit : List (String × VisitState)) (f g : String)
    (v : VisitState) (hv : v = .Visiting ∨ v = .Visited) :
    markedB (recordSet visit f v) g = if g = f then true else markedB visit g := by
  rw [markedB, recordGet_recordSet]
  by_cases h : g = f
  · rw [if_pos h, if_pos h]
    rcases hv with rfl | rfl <;> rfl
  · rw [if_neg h, if_neg h, markedB]

theorem unmarkedWeight_mark_le (host : ModuleHost) (files : List String)
    (visit : List (String × VisitState)) (f : String) (v : VisitState)
    (hv : v = .Visiting ∨ v = .Visited) :
    unmarkedWeight host files (recordSet visit f v) ≤ unmarkedWeight host files visit := by
  induction files with
  | nil => exact Nat.le_refl _
  | cons x xs ih =>
      simp only [unmarkedWeight]
      rw [markedB_recordSet _ _ _ _ hv]
      by_cases hx : x = f
      · rw [if_pos hx, if_pos rfl]
        by_cases hm : markedB visit x = true
        · rw [if_pos hm]
          omega
        · rw [if_neg hm]
          omega
      · rw [if_neg hx]
        by_cases hm : markedB visit x = true
        · rw [if_pos hm]
          omega
        · rw [if_neg hm]
          omega

theorem unmarkedWeight_mark_lt (host : ModuleHost) (files : List String)
    (visit : List (String × VisitState)) (f : String) (v : VisitState)
    (hv : v = .Visiting ∨ v = .Visited) (hf : f ∈ files)
    (hunm : markedB visit f = false) :
    unmarkedWeight host files (recordSet visit f v) + ((importsOf host f).length + 2)
      ≤ unmarkedWeight host files visit := by
  induction files with
  | nil => cases hf
  | cons x xs ih =>
      simp only [unmarkedWeight]
      rw [markedB_recordSet _ _ _ _ hv]
      by_cases hx : x = f
      · rw [if_pos hx, if_pos rfl, hx, if_neg (by rw [hunm]; exact Bool.false_ne_true)]
        have hle := unmarkedWeight_mark_le host xs visit f v hv
        omega
      · have hf' : f ∈ xs := by
          cases hf with
          | head => exact absurd rfl hx
          | tail _ h => exact h
        rw [if_neg hx]
        have := ih hf'
        by_cases hm : markedB visit x = true
        · rw [if_pos hm]
          omega
        · rw [if_neg hm]
          omega


theorem dfsRun_nil (host : ModuleHost) (fuel : Nat) (st : LoaderState) :
    dfsRun host (fuel + 1) [] st = .ok st := rfl

theorem dfsRun_finish (host : ModuleHost) (fuel : Nat) (f : String)
    (rest : List DfsJob) (st : LoaderState) :
    dfsRun host (fuel + 1) (.finishFile f :: rest) st =
      dfsRun host fuel rest { st with visit := recordSet st.visit f .Visited } := rfl

theorem dfsRun_enter_marked (host : ModuleHost) (fuel : Nat) (f : String)
    (rest : List DfsJob) (st : LoaderState) (h : markedB st.visit f = true) :
    dfsRun host (fuel + 1) (.enterFile f :: rest) st = dfsRun host fuel rest st := by
  cases hst : (recordGet st.visit f).getD .Unvisited with
  | Visited => rw [dfsRun, hst]; simp
  | Visiting => rw [dfsRun, hst]; simp
  | Unvisited => rw [markedB, hst] at h; cases h

theorem dfsRun_enter_registered (host : ModuleHost) (fuel : Nat) (f : String)
    (rest : List DfsJob) (st : LoaderState)
    (hunm : markedB st.visit f = false)
    (hreg : (recordGet st.byFile f).isSome = true) :
    dfsRun host (fuel + 1) (.enterFile f :: rest) st =
      dfsRun host fuel (.finishFile f :: rest)
        { st with visit := recordSet st.visit f .Visiting } := by
  cases hst : (recordGet st.visit f).getD .Unvisited with
  | Visited => rw [markedB, hst] at hunm; cases hunm
  | Visiting => rw [markedB, hst] at hunm; cases hunm
  | Unvisited =>
      rw [dfsRun, hst]
      simp [hreg]

theorem dfsRun_enter_new (host : ModuleHost) (fuel : Nat) (f : String)
    (rest : List DfsJob) (st : LoaderState) (src : String) (ast : ModuleNode)
    (hunm : markedB st.visit f = false)
    (hreg : (recordGet st.byFile f).isSome = false)
    (hsrc : host.readFile f = .ok src)
    (hast : parseModuleSource src f = .ok ast) :
    dfsRun host (fuel + 1) (.enterFile f :: rest) st =
      dfsRun host fuel
        ((ast.imports.map (fun imp => DfsJob.enterFile (host.resolve f imp.modulePath)))
          ++ .finishFile f :: rest)
        { st with visit := recordSet st.visit f .Visiting
                , reads := st.reads ++ [f]
                , byFile := recordSet st.byFile f { name := ast.name, file := f, ast := ast } } := by
  cases hst : (recordGet st.visit f).getD .Unvisited with
  | Visited => rw [markedB, hst] at hunm; cases hunm
  | Visiting => rw [markedB, hst] at hunm; cases hunm
  | Unvisited =>
      rw [dfsRun, hst]
      simp [hreg, hsrc, hast]


theorem dfsRun_terminates (host : ModuleHost) (files : List String)
    (hclosed : ∀ f, f ∈ files → ∀ g, g ∈ importsOf host f → g ∈ files)
    (hparse : ∀ f, f ∈ files → ∃ ast, readAndParse host f = .ok ast) :
    ∀ fuel jobs st,
      (∀ f, DfsJob.enterFile f ∈ jobs → f ∈ files) →
      dfsCost host files st.visit jobs < fuel →
      ∃ st', dfsRun host fuel jobs st = .ok st' := by
  intro fuel
  induction fuel with
  | zero =>
      intro jobs st _ hc
      exact absurd hc (by omega)
  | succ n ih =>
      intro jobs st hjobs hc
      cases jobs with
      | nil => exact ⟨st, dfsRun_nil host n st⟩
      | cons job rest =>
          cases job with
          | finishFile f =>
              rw [dfsRun_finish]
              refine ih _ _ (fun g hg => hjobs g (List.mem_cons_of_mem _ hg)) ?_
              have hle := unmarkedWeight_mark_le host files st.visit f .Visited (Or.inr rfl)
              rw [dfsCost] at hc ⊢
              dsimp only
              simp only [List.length_cons] at hc
              omega
          | enterFile f =>
              by_cases hm : markedB st.visit f = true
              · rw [dfsRun_enter_marked host n f rest st hm]
                refine ih _ _ (fun g hg => hjobs g (List.mem_cons_of_mem _ hg)) ?_
                rw [dfsCost] at hc ⊢
                simp only [List.length_cons] at hc
                omega
              · have hunm : markedB st.visit f = false := by
                  cases hmm : markedB st.visit f
                  · rfl
                  · exact absurd hmm hm
                have hff : f ∈ files := hjobs f (List.mem_cons_self _ _)
                have hwlt := unmarkedWeight_mark_lt host files st.visit f .Visiting
                  (Or.inl rfl) hff hunm
                by_cases hreg : (recordGet st.byFile f).isSome = true
                · rw [dfsRun_enter_registered host n f rest st hunm hreg]
                  refine ih _ _ ?_ ?_
                  · intro g hg
                    rcases List.mem_cons.mp hg with h1 | h2
                    · cases h1
                    · exact hjobs g (List.mem_cons_of_mem _ h2)
                  · rw [dfsCost] at hc ⊢
                    dsimp only
                    simp only [List.length_cons] at hc ⊢
                    omega
                · obtain ⟨ast, hra⟩ := hparse f hff
                  obtain ⟨src, hsrc, hast⟩ :
                      ∃ src, host.readFile f = .ok src ∧ parseModuleSource src f = .ok ast := by
                    rw [readAndParse] at hra
                    cases hread : host.readFile f with
                    | error e => rw [hread] at hra; cases hra
                    | ok src => rw [hread] at hra; exact ⟨src, rfl, hra⟩
                  have hregf : (recordGet st.byFile f).isSome = false := by
                    cases hh : (recordGet st.byFile f).isSome
                    · rfl
                    · exact absurd hh hreg
                  rw [dfsRun_enter_new host n f rest st src ast hunm hregf hsrc hast]
                  refine ih _ _ ?_ ?_
                  · intro g hg
                    rcases List.mem_append.mp hg with h1 | h2
                    · obtain ⟨imp, himp, heq⟩ := List.mem_map.mp h1
                      injection heq with he
                      apply hclosed f hff
                      rw [importsOf, hra]
                      rw [← he]
                      exact List.mem_map_of_mem _ himp
                    · rcases List.mem_cons.mp h2 with h3 | h4
                      · cases h3
                      · exact hjobs g (List.mem_cons_of_mem _ h4)
                  · rw [dfsCost] at hc ⊢
                    dsimp only
                    simp only [List.length_append, List.length_cons, List.length_map] at hc ⊢
                    have himp_len : (importsOf host f).length = ast.imports.length := by
                      rw [importsOf, hra]
                      simp
                    omega


theorem dfsRun_enter_readfail (host : ModuleHost) (fuel : Nat) (f : String)
    (rest : List DfsJob) (st : LoaderState) (e : String)
    (hunm : markedB st.visit f = false)
    (hreg : (recordGet st.byFile f).isSome = false)
    (hsrc : host.readFile f = .error e) :
    dfsRun host (fuel + 1) (.enterFile f :: rest) st = .error e := by
  cases hst : (recordGet st.visit f).getD .Unvisited with
  | Visited => rw [markedB, hst] at hunm; cases hunm
  | Visiting => rw [markedB, hst] at hunm; cases hunm
  | Unvisited =>
      rw [dfsRun, hst]
      simp [hreg, hsrc]

theorem dfsRun_enter_parsefail (host : ModuleHost) (fuel : Nat) (f : String)
    (rest : List DfsJob) (st : LoaderState) (src e : String)
    (hunm : markedB st.visit f = false)
    (hreg : (recordGet st.byFile f).isSome = false)
    (hsrc : host.readFile f = .ok src)
    (hast : parseModuleSource src f = .error e) :
    dfsRun host (fuel + 1) (.enterFile f :: rest) st = .error e := by
  cases hst : (recordGet st.visit f).getD .Unvisited with
  | Visited => rw [markedB, hst] at hunm; cases hunm
  | Visiting => rw [markedB, hst] at hunm; cases hunm
  | Unvisited =>
      rw [dfsRun, hst]
      simp [hreg, hsrc, hast]

/-- Consistency of the registry: no file is read twice, a file is
registered exactly when it has been read, and every read file is marked. -/
def LoaderInv (st : LoaderState) : Prop :=
  st.reads.Nodup
  ∧ (st.byFile.map (fun p => p.1)).Nodup
  ∧ (∀ f, (recordGet st.byFile f).isSome = true ↔ f ∈ st.reads)
  ∧ (∀ f, f ∈ st.reads → markedB st.visit f = true)

theorem dfsRun_inv (host : ModuleHost) :
    ∀ fuel jobs st st', dfsRun host fuel jobs st = .ok st' →
      LoaderInv st → LoaderInv st' := by
  intro fuel
  induction fuel with
  | zero =>
      intro jobs st st' h _
      rw [dfsRun] at h
      cases h
  | succ n ih =>
      intro jobs st st' h hinv
      cases jobs with
      | nil =>
          rw [dfsRun_nil] at h
          injection h with he
          subst he
          exact hinv
      | cons job rest =>
          cases job with
          | finishFile f =>
              rw [dfsRun_finish] at h
              refine ih _ _ _ h ?_
              obtain ⟨h1, h2, h3, h4⟩ := hinv
              refine ⟨h1, h2, h3, fun g hg => ?_⟩
              rw [markedB_recordSet _ _ _ _ (Or.inr rfl)]
              by_cases hgf : g = f
              · rw [if_pos hgf]
              · rw [if_neg hgf]
                exact h4 g hg
          | enterFile f =>
              by_cases hm : markedB st.visit f = true
              · rw [dfsRun_enter_marked host n f rest st hm] at h
                exact ih _ _ _ h hinv
              · have hunm : markedB st.visit f = false := by
                  cases hmm : markedB st.visit f
                  · rfl
                  · exact absurd hmm hm
                by_cases hreg : (recordGet st.byFile f).isSome = true
                · rw [dfsRun_enter_registered host n f rest st hunm hreg] at h
                  refine ih _ _ _ h ?_
                  obtain ⟨h1, h2, h3, h4⟩ := hinv
                  refine ⟨h1, h2, h3, fun g hg => ?_⟩
                  rw [markedB_recordSet _ _ _ _ (Or.inl rfl)]
                  by_cases hgf : g = f
                  · rw [if_pos hgf]
                  · rw [if_neg hgf]
                    exact h4 g hg
                · have hregf : (recordGet st.byFile f).isSome = false := by
                    cases hh : (recordGet st.byFile f).isSome
                    · rfl
                    · exact absurd hh hreg
                  cases hsrc : host.readFile f with
                  | error e =>
                      rw [dfsRun_enter_readfail host n f rest st e hunm hregf hsrc] at h
                      cases h
                  | ok src =>
                      cases hast : parseModuleSource src f with
                      | error e =>
                          rw [dfsRun_enter_parsefail host n f rest st src e hunm hregf
                            hsrc hast] at h
                          cases h
                      | ok ast =>
                          rw [dfsRun_enter_new host n f rest st src ast hunm hregf
                            hsrc hast] at h
                          refine ih _ _ _ h ?_
                          obtain ⟨h1, h2, h3, h4⟩ := hinv
                          have hfnotin : f ∉ st.reads := fun hin =>
                            absurd (h4 f hin) (by rw [hunm]; exact Bool.false_ne_true)
                          have hnone : recordGet st.byFile f = none := by
                            cases hh : recordGet st.byFile f with
                            | none => rfl
                            | some v =>
                                exfalso
                                apply hfnotin
                                apply (h3 f).mp
                                rw [hh]
                                rfl
                          refine ⟨?_, ?_, ?_, ?_⟩
                          · rw [List.nodup_append]
                            refine ⟨h1, List.nodup_singleton f, fun a ha hb => ?_⟩
                            rw [List.mem_singleton] at hb
                            subst hb
                            exact hfnotin ha
                          · rw [recordSet_keys_of_none _ _ _ hnone, List.nodup_append]
                            refine ⟨h2, List.nodup_singleton f, fun a ha hb => ?_⟩
                            rw [List.mem_singleton] at hb
                            subst hb
                            exact hfnotin ((h3 a).mp
                              ((recordGet_isSome_iff_mem st.byFile a).mpr ha))
                          · intro g
                            dsimp only
                            rw [recordGet_recordSet, List.mem_append, List.mem_singleton]
                            by_cases hgf : g = f
                            · rw [if_pos hgf]
                              simp [hgf]
                            · rw [if_neg hgf]
                              rw [h3 g]
                              simp [hgf]
                          · intro g hg
                            dsimp only at hg ⊢
                            rw [markedB_recordSet _ _ _ _ (Or.inl rfl)]
                            rw [List.mem_append, List.mem_singleton] at hg
                            by_cases hgf : g = f
                            · rw [if_pos hgf]
                            · rw [if_neg hgf]
                              rcases hg with hg | hg
                              · exact h4 g hg
                              · exact absurd hg hgf


/-- A host with two module files that import each other (spec example
scenario 3's cyclic pair). -/
def hostAB : ModuleHost :=
  { readFile := fun f =>
      if f = "/A" then
        .ok "модуль А; импорт Б из \"B\"; узлы \x7b а1: \x7b тип: концовка; название: \"x\"; описание: \"y\"; \x7d \x7d экспорт [а1];"
      else if f = "/B" then
        .ok "модуль Б; импорт А из \"A\"; узлы \x7b б1: \x7b тип: концовка; название: \"z\"; описание: \"w\"; \x7d \x7d экспорт [б1];"
      else .error ("no file " ++ f)
  , resolve := fun _ spec => "/" ++ spec }

/-- Claim C4: over a finite universe of module files closed under imports,
all of which read and parse as modules, the depth-first walk completes
whenever its fuel exceeds the remaining cost (so it terminates, cycles
included); every completed walk started from a consistent registry leaves
the registry consistent — no file read twice, one registry entry per file,
registered exactly when read; the fresh loader is consistent; and entering
a file marked in-progress ends that branch immediately, without error and
without touching the state. -/
theorem C4_loader_walk (host : ModuleHost) (files : List String)
    (hclosed : ∀ f, f ∈ files → ∀ g, g ∈ importsOf host f → g ∈ files)
    (hparse : ∀ f, f ∈ files → ∃ ast, readAndParse host f = .ok ast) :
    (∀ fuel jobs st, (∀ f, DfsJob.enterFile f ∈ jobs → f ∈ files) →
       dfsCost host files st.visit jobs < fuel →
       ∃ st', dfsRun host fuel jobs st = .ok st')
    ∧ (∀ fuel jobs st st', dfsRun host fuel jobs st = .ok st' →
        LoaderInv st → LoaderInv st')
    ∧ LoaderInv emptyLoader
    ∧ (∀ (st : LoaderState) (f : String) (fuel : Nat),
        recordGet st.visit f = some .Visiting →
        dfsParse host (fuel + 2) f st = .ok st) := by
  refine ⟨dfsRun_terminates host files hclosed hparse, dfsRun_inv host, ?_, ?_⟩
  · refine ⟨List.nodup_nil, List.nodup_nil, fun f => ?_, fun f hf => absurd hf (List.not_mem_nil f)⟩
    constructor
    · intro hh
      cases hh
    · intro hh
      cases hh
  · intro st f fuel h
    rw [dfsParse, dfsRun_enter_marked host (fuel + 1) f [] st (by simp [markedB, h])]
    exact dfsRun_nil host fuel st

/-- Claim C4 witness: the cyclic two-file import graph is walked to
completion, and entering an in-progress file returns at once. -/
theorem C4_loader_witness :
    (∃ st', dfsRun hostAB 20 [DfsJob.enterFile "/A"] emptyLoader = .ok st')
    ∧ dfsParse hostAB 5 "/X"
        { byFile := [], visit := [("/X", .Visiting)], reads := [] } =
      .ok { byFile := [], visit := [("/X", .Visiting)], reads := [] } := by
  constructor
  · refine (C4_loader_walk hostAB ["/A", "/B"] ?_ ?_).1 20 _ emptyLoader ?_ ?_
    · decide
    · intro f hf
      simp only [List.mem_cons, List.not_mem_nil, or_false] at hf
      rcases hf with rfl | rfl
      · exact ⟨_, rfl⟩
      · exact ⟨_, rfl⟩
    · intro f hf
      simp only [List.mem_singleton, DfsJob.enterFile.injEq] at hf
      subst hf
      decide
    · decide
  · exact (C4_loader_walk hostAB [] (fun f hf => absurd hf (List.not_mem_nil f))
      (fun f hf => absurd hf (List.not_mem_nil f))).2.2.2 _ "/X" 3 rfl


/-! ## Parser clause analysis (claim C3) -/

theorem getD_of_drop {α : Type} (d : α) :
    ∀ (l : List α) (n : Nat) (t : α) (rest : List α),
      l.drop n = t :: rest → l.getD n d = t := by
  intro l
  induction l with
  | nil =>
      intro n t rest h
      rw [List.drop_nil] at h
      cases h
  | cons x xs ih =>
      intro n t rest h
      cases n with
      | zero =>
          injection h with h1 _
      | succ m =>
          rw [List.drop_succ_cons] at h
          rw [List.getD_cons_succ]
          exact ih m t rest h

theorem drop_succ_of_drop_cons {α : Type} :
    ∀ (l : List α) (n : Nat) (t : α) (rest : List α),
      l.drop n = t :: rest → l.drop (n + 1) = rest := by
  intro l
  induction l with
  | nil =>
      intro n t rest h
      rw [List.drop_nil] at h
      cases h
  | cons x xs ih =>
      intro n t rest h
      cases n with
      | zero =>
          injection h with _ h2
      | succ m =>
          rw [List.drop_succ_cons] at h
          rw [List.drop_succ_cons]
          exact ih m t rest h

theorem drop_add_of_drop_append {α : Type} (l : List α) :
    ∀ (A : List α) (n : Nat) (B : List α),
      l.drop n = A ++ B → l.drop (n + A.length) = B := by
  intro A
  induction A with
  | nil =>
      intro n B h
      simpa using h
  | cons x xs ih =>
      intro n B h
      rw [List.cons_append] at h
      have h1 := drop_succ_of_drop_cons l n x (xs ++ B) h
      have h2 := ih (n + 1) B h1
      rw [List.length_cons]
      rw [show n + (xs.length + 1) = n + 1 + xs.length by omega]
      exact h2

/-- Advancing the cursor by `n` tokens. -/
def advanceBy (st : ParserState) (n : Nat) : ParserState :=
  { st with current := st.current + n }

theorem advanceBy_tokens (st : ParserState) (n : Nat) :
    (advanceBy st n).tokens = st.tokens := rfl

theorem advanceBy_advanceBy (st : ParserState) (a b : Nat) :
    advanceBy (advanceBy st a) b = advanceBy st (a + b) := by
  rw [advanceBy, advanceBy, advanceBy]
  simp [Nat.add_assoc]

theorem advanceBy_drop (st : ParserState) (a : Nat) :
    (advanceBy st a).tokens.drop (advanceBy st a).current =
      st.tokens.drop (st.current + a) := rfl

theorem peek_of_drop (st : ParserState) (t : Token) (rest : List Token)
    (h : st.tokens.drop st.current = t :: rest) : st.peek = t :=
  getD_of_drop fallbackTok st.tokens st.current t rest h

theorem isAtEnd_of_drop (st : ParserState) (t : Token) (rest : List Token)
    (h : st.tokens.drop st.current = t :: rest) (ht : t.type ≠ .EOF) :
    st.isAtEnd = false := by
  rw [ParserState.isAtEnd, peek_of_drop st t rest h]
  simpa using ht

theorem advanceTok_of_drop (st : ParserState) (t : Token) (rest : List Token)
    (h : st.tokens.drop st.current = t :: rest) (ht : t.type ≠ .EOF) :
    st.advanceTok = (t, advanceBy st 1) := by
  rw [ParserState.advanceTok, isAtEnd_of_drop st t rest h ht]
  simp only [Bool.false_eq_true, if_false, advanceBy]
  rw [ParserState.previous]
  congr 1
  rw [Nat.add_sub_cancel]
  exact getD_of_drop _ _ _ _ _ h

theorem checkTok_pos_of_drop (st : ParserState) (t : Token) (rest : List Token)
    (ty : TokenType) (h : st.tokens.drop st.current = t :: rest)
    (hty : t.type = ty) (hne : ty ≠ .EOF) :
    st.checkTok ty = true := by
  rw [ParserState.checkTok, isAtEnd_of_drop st t rest h (hty ▸ hne)]
  simp only [Bool.false_eq_true, if_false]
  rw [peek_of_drop st t rest h]
  simp [hty]

theorem checkTok_neg_of_drop (st : ParserState) (t : Token) (rest : List Token)
    (ty : TokenType) (h : st.tokens.drop st.current = t :: rest)
    (hty : t.type ≠ ty) :
    st.checkTok ty = false := by
  rw [ParserState.checkTok]
  by_cases hend : st.isAtEnd = true
  · rw [hend]
    rfl
  · rw [eq_false_of_ne_true hend]
    simp only [Bool.false_eq_true, if_false]
    rw [peek_of_drop st t rest h]
    simpa using hty

theorem matchTok_pos_of_drop (st : ParserState) (t : Token) (rest : List Token)
    (ty : TokenType) (h : st.tokens.drop st.current = t :: rest)
    (hty : t.type = ty) (hne : ty ≠ .EOF) :
    st.matchTok ty = (true, advanceBy st 1) := by
  rw [ParserState.matchTok, checkTok_pos_of_drop st t rest ty h hty hne]
  rw [advanceTok_of_drop st t rest h (hty ▸ hne)]
  rfl

theorem matchTok_neg_of_drop (st : ParserState) (t : Token) (rest : List Token)
    (ty : TokenType) (h : st.tokens.drop st.current = t :: rest)
    (hty : t.type ≠ ty) :
    st.matchTok ty = (false, st) := by
  rw [ParserState.matchTok, checkTok_neg_of_drop st t rest ty h hty]
  rfl

theorem consume_of_drop (st : ParserState) (t : Token) (rest : List Token)
    (ty : TokenType) (msg : String) (h : st.tokens.drop st.current = t :: rest)
    (hty : t.type = ty) (hne : ty ≠ .EOF) :
    consume st ty msg = .ok (t, advanceBy st 1) := by
  rw [consume, checkTok_pos_of_drop st t rest ty h hty hne]
  rw [if_pos rfl, advanceTok_of_drop st t rest h (hty ▸ hne)]


/-- A token with irrelevant position data, as the clause grammar only
inspects types and values. -/
def mkTok (ty : TokenType) (v : String) : Token :=
  { type := ty, value := v, line := 0, column := 0, start := 0, endPos := 0 }

/-- A transition/option target as written: local or module-qualified. -/
inductive TargetRef where
  | localRef (id : String)
  | qualifiedRef (moduleName nodeId : String)
  deriving Repr, DecidableEq

/-- The raw string `parseTargetString` produces for a target. -/
def TargetRef.text : TargetRef → String
  | .localRef id => id
  | .qualifiedRef m n => "@" ++ m ++ "." ++ n

/-- The token spelling of a target. -/
def targetTokens : TargetRef → List Token
  | .localRef id => [mkTok .IDENTIFIER id]
  | .qualifiedRef m n =>
      [mkTok .AT "@", mkTok .IDENTIFIER m, mkTok .DOT ".", mkTok .IDENTIFIER n]

/-- One clause of a node body. -/
inductive Clause where
  | typeClause (k : NodeKind)
  | descriptionClause (s : String)
  | transitionsClause (ts : List TargetRef)
  | optionsClause (os : List (String × TargetRef))
  | titleClause (s : String)
  deriving Repr, DecidableEq

/-- The keyword token of a node-type name. -/
def kindTok : NodeKind → Token
  | .initial => mkTok .INITIAL "начальный"
  | .action => mkTok .ACTION "действие"
  | .ending => mkTok .ENDING "концовка"

/-- Comma-separated target list. -/
def targetsTokens : List TargetRef → List Token
  | [] => []
  | [t] => targetTokens t
  | t :: rest => targetTokens t ++ mkTok .COMMA "," :: targetsTokens rest

/-- The token spelling of one option `("text", target)`. -/
def optionTokens (o : String × TargetRef) : List Token :=
  mkTok .LEFT_PAREN "(" :: mkTok .STRING o.1 :: mkTok .COMMA ","
    :: (targetTokens o.2 ++ [mkTok .RIGHT_PAREN ")"])

/-- Comma-separated option list. -/
def optionItemsTokens : List (String × TargetRef) → List Token
  | [] => []
  | [o] => optionTokens o
  | o :: rest => optionTokens o ++ mkTok .COMMA "," :: optionItemsTokens rest

/-- The token spelling of one clause, closing semicolon included. -/
def clauseTokens : Clause → List Token
  | .typeClause k =>
      [mkTok .TYPE "тип", mkTok .COLON ":", kindTok k, mkTok .SEMICOLON ";"]
  | .descriptionClause s =>
      [mkTok .DESCRIPTION "описание", mkTok .COLON ":", mkTok .STRING s, mkTok .SEMICOLON ";"]
  | .transitionsClause ts =>
      mkTok .TRANSITIONS "переходы" :: mkTok .COLON ":" :: mkTok .LEFT_BRACKET "["
        :: (targetsTokens ts ++ [mkTok .RIGHT_BRACKET "]", mkTok .SEMICOLON ";"])
  | .optionsClause os =>
      mkTok .OPTIONS "варианты" :: mkTok .COLON ":" :: mkTok .LEFT_BRACKET "["
        :: (optionItemsTokens os ++ [mkTok .RIGHT_BRACKET "]", mkTok .SEMICOLON ";"])
  | .titleClause s =>
      [mkTok .TITLE "название", mkTok .COLON ":", mkTok .STRING s, mkTok .SEMICOLON ";"]

/-- The token spelling of a whole node body. -/
def clausesTokens (cs : List Clause) : List Token := (cs.map clauseTokens).flatten

/-- The OptionChoice a serialized option parses to. -/
def optionChoiceOf (o : String × TargetRef) : OptionChoice :=
  { text := o.1, target := o.2.text, line := 0, column := 0 }

/-- What one clause does to the local variables of `parseNodeDefinition`:
type, description and title are overwritten, transitions and options are
pushed into. -/
def applyClause (f : NodeFields) : Clause → NodeFields
  | .typeClause k => { f with nodeType := k }
  | .descriptionClause s => { f with description := s }
  | .transitionsClause ts => { f with transitions := f.transitions ++ ts.map TargetRef.text }
  | .optionsClause os => { f with options := f.options ++ os.map optionChoiceOf }
  | .titleClause s => { f with title := s }

/-- Fuel bound of one clause: one loop iteration plus one per list item. -/
def clauseWeight : Clause → Nat
  | .transitionsClause ts => ts.length + 1
  | .optionsClause os => os.length + 1
  | _ => 1

/-- Fuel sufficient to parse a clause list. -/
def clausesFuel (cs : List Clause) : Nat := (cs.map clauseWeight).sum + 1

theorem bind_ok_eq {α β : Type} (x : α) (f : α → Except String β) :
    (Except.ok x >>= f) = f x := rfl

theorem parseTargetString_of_drop (st : ParserState) (t : TargetRef) (rest : List Token)
    (h : st.tokens.drop st.current = targetTokens t ++ rest) :
    parseTargetString st =
      .ok (t.text, advanceBy st (targetTokens t).length) := by
  cases t with
  | localRef id =>
      rw [targetTokens, List.cons_append, List.nil_append] at h
      rw [parseTargetString,
        matchTok_neg_of_drop st _ _ .AT h (by intro hh; cases hh)]
      dsimp only
      rw [if_neg (by simp)]
      rw [consume_of_drop st _ _ .IDENTIFIER _ h rfl (by intro hh; cases hh)]
      rfl
  | qualifiedRef m n =>
      rw [targetTokens] at h
      simp only [List.cons_append, List.nil_append] at h
      have h1 := drop_succ_of_drop_cons _ _ _ _ h
      have h2 := drop_succ_of_drop_cons _ _ _ _ h1
      have h3 := drop_succ_of_drop_cons _ _ _ _ h2
      rw [parseTargetString,
        matchTok_pos_of_drop st _ _ .AT h rfl (by intro hh; cases hh)]
      dsimp only
      rw [if_pos rfl]
      rw [consume_of_drop (advanceBy st 1) _ _ .IDENTIFIER _ h1 rfl (by intro hh; cases hh),
        bind_ok_eq]
      dsimp only
      rw [consume_of_drop (advanceBy (advanceBy st 1) 1) _ _ .DOT _
          (by rw [advanceBy_advanceBy]; exact h2) rfl (by intro hh; cases hh),
        bind_ok_eq]
      dsimp only
      rw [consume_of_drop (advanceBy (advanceBy (advanceBy st 1) 1) 1) _ _ .IDENTIFIER _
          (by rw [advanceBy_advanceBy, advanceBy_advanceBy]; exact h3) rfl
          (by intro hh; cases hh),
        bind_ok_eq]
      dsimp only
      rw [advanceBy_advanceBy, advanceBy_advanceBy, advanceBy_advanceBy]
      rfl


theorem parseTransitionsItems_of_drop :
    ∀ (ts : List TargetRef) (fuel : Nat) (st : ParserState) (acc : List String)
      (t0 : Token) (rest : List Token),
      ts ≠ [] → t0.type = .RIGHT_BRACKET → ts.length ≤ fuel →
      st.tokens.drop st.current = targetsTokens ts ++ t0 :: rest →
      parseTransitionsItems fuel st acc =
        .ok (acc ++ ts.map TargetRef.text, advanceBy st (targetsTokens ts).length) := by
  intro ts
  induction ts with
  | nil => intro _ _ _ _ _ hne _ _ _; exact absurd rfl hne
  | cons t ts' ih =>
      intro fuel st acc t0 rest _ ht0 hfuel h
      cases ts' with
      | nil =>
          cases fuel with
          | zero => simp at hfuel
          | succ m =>
              rw [targetsTokens] at h
              rw [parseTransitionsItems,
                parseTargetString_of_drop st t (t0 :: rest) h, bind_ok_eq]
              dsimp only
              have hnext := drop_add_of_drop_append _ _ _ _ h
              rw [matchTok_neg_of_drop (advanceBy st (targetTokens t).length) t0 rest .COMMA
                (by rw [advanceBy_drop]; exact hnext)
                (by rw [ht0]; intro hh; cases hh)]
              dsimp only
              rw [if_neg (by simp)]
              rfl
      | cons t2 ts'' =>
          cases fuel with
          | zero => simp at hfuel
          | succ m =>
              rw [show targetsTokens (t :: t2 :: ts'') =
                  targetTokens t ++ mkTok .COMMA "," :: targetsTokens (t2 :: ts'') from rfl,
                List.append_assoc] at h
              have hnext := drop_add_of_drop_append _ _ _ _ h
              rw [List.cons_append] at hnext
              have hnext2 := drop_succ_of_drop_cons _ _ _ _ hnext
              rw [parseTransitionsItems,
                parseTargetString_of_drop st t _ h, bind_ok_eq]
              dsimp only
              rw [matchTok_pos_of_drop (advanceBy st (targetTokens t).length) _ _ .COMMA
                (by rw [advanceBy_drop]; exact hnext) rfl (by intro hh; cases hh)]
              dsimp only
              rw [if_pos rfl]
              rw [ih m _ _ t0 rest (by intro hh; cases hh) ht0 (by simp at hfuel ⊢; omega)
                (by rw [advanceBy_advanceBy, advanceBy_drop]
                    rw [show st.current + ((targetTokens t).length + 1) =
                        st.current + (targetTokens t).length + 1 from by omega]
                    exact hnext2)]
              have hlen : (targetsTokens (t :: t2 :: ts'')).length =
                  (targetTokens t).length + 1 + (targetsTokens (t2 :: ts'')).length := by
                rw [show targetsTokens (t :: t2 :: ts'') =
                    targetTokens t ++ mkTok .COMMA "," :: targetsTokens (t2 :: ts'') from rfl]
                simp
                omega
              rw [advanceBy_advanceBy, advanceBy_advanceBy, hlen]
              simp
              rw [Nat.add_assoc]


theorem drop_shift {α : Type} (l : List α) (a b : Nat) (ts : List α)
    (hab : a = b) (h : List.drop b l = ts) : List.drop a l = ts := by
  rw [hab]
  exact h

theorem parseOptionsItems_of_drop :
    ∀ (os : List (String × TargetRef)) (fuel : Nat) (st : ParserState)
      (acc : List OptionChoice) (t0 : Token) (rest : List Token),
      os ≠ [] → t0.type = .RIGHT_BRACKET → os.length ≤ fuel →
      st.tokens.drop st.current = optionItemsTokens os ++ t0 :: rest →
      parseOptionsItems fuel st acc =
        .ok (acc ++ os.map optionChoiceOf, advanceBy st (optionItemsTokens os).length) := by
  intro os
  induction os with
  | nil => intro _ _ _ _ _ hne _ _ _; exact absurd rfl hne
  | cons o os' ih =>
      intro fuel st acc t0 rest _ ht0 hfuel h
      cases os' with
      | nil =>
          cases fuel with
          | zero => simp at hfuel
          | succ m =>
              rw [optionItemsTokens] at h
              rw [optionTokens, List.cons_append, List.cons_append, List.cons_append] at h
              have h1 := drop_succ_of_drop_cons _ _ _ _ h
              have h2 := drop_succ_of_drop_cons _ _ _ _ h1
              have h3 := drop_succ_of_drop_cons _ _ _ _ h2
              rw [List.append_assoc, List.singleton_append] at h3
              have h4 := drop_add_of_drop_append _ _ _ _ h3
              have h5 := drop_succ_of_drop_cons _ _ _ _ h4
              rw [parseOptionsItems]
              rw [peek_of_drop st _ _ h]
              rw [consume_of_drop st _ _ .LEFT_PAREN _ h rfl (by intro hh; cases hh), bind_ok_eq]
              dsimp only
              rw [consume_of_drop (advanceBy st 1) _ _ .STRING _ h1 rfl
                (by intro hh; cases hh), bind_ok_eq]
              dsimp only
              rw [consume_of_drop (advanceBy (advanceBy st 1) 1) _ _ .COMMA _
                (by simp only [advanceBy_advanceBy, advanceBy_drop]
                    exact drop_shift _ _ _ _ (by omega) h2) rfl
                (by intro hh; cases hh), bind_ok_eq]
              dsimp only
              rw [parseTargetString_of_drop (advanceBy (advanceBy (advanceBy st 1) 1) 1) o.2 _
                (by simp only [advanceBy_advanceBy, advanceBy_drop]
                    exact drop_shift _ _ _ _ (by omega) h3),
                bind_ok_eq]
              dsimp only
              rw [consume_of_drop
                (advanceBy (advanceBy (advanceBy (advanceBy st 1) 1) 1) (targetTokens o.2).length)
                _ _ .RIGHT_PAREN _
                (by simp only [advanceBy_advanceBy, advanceBy_drop]
                    exact drop_shift _ _ _ _ (by omega) h4) rfl
                (by intro hh; cases hh), bind_ok_eq]
              dsimp only
              rw [matchTok_neg_of_drop _ t0 rest .COMMA
                (by simp only [advanceBy_advanceBy, advanceBy_drop]
                    exact drop_shift _ _ _ _ (by omega) h5)
                (by rw [ht0]; intro hh; cases hh)]
              dsimp only
              rw [if_neg (by simp)]
              simp only [advanceBy_advanceBy]
              rw [show optionItemsTokens [o] = optionTokens o from rfl, optionTokens]
              simp [optionChoiceOf, mkTok, advanceBy]
              omega
      | cons o2 os'' =>
          cases fuel with
          | zero => simp at hfuel
          | succ m =>
              rw [show optionItemsTokens (o :: o2 :: os'') =
                  optionTokens o ++ mkTok .COMMA "," :: optionItemsTokens (o2 :: os'') from rfl,
                List.append_assoc] at h
              rw [optionTokens, List.cons_append, List.cons_append, List.cons_append] at h
              have h1 := drop_succ_of_drop_cons _ _ _ _ h
              have h2 := drop_succ_of_drop_cons _ _ _ _ h1
              have h3 := drop_succ_of_drop_cons _ _ _ _ h2
              rw [List.append_assoc, List.singleton_append] at h3
              have h4 := drop_add_of_drop_append _ _ _ _ h3
              have h5 := drop_succ_of_drop_cons _ _ _ _ h4
              rw [List.cons_append] at h5
              have h6 := drop_succ_of_drop_cons _ _ _ _ h5
              rw [parseOptionsItems]
              rw [peek_of_drop st _ _ h]
              rw [consume_of_drop st _ _ .LEFT_PAREN _ h rfl (by intro hh; cases hh), bind_ok_eq]
              dsimp only
              rw [consume_of_drop (advanceBy st 1) _ _ .STRING _ h1 rfl
                (by intro hh; cases hh), bind_ok_eq]
              dsimp only
              rw [consume_of_drop (advanceBy (advanceBy st 1) 1) _ _ .COMMA _
                (by simp only [advanceBy_advanceBy, advanceBy_drop]
                    exact drop_shift _ _ _ _ (by omega) h2) rfl
                (by intro hh; cases hh), bind_ok_eq]
              dsimp only
              rw [parseTargetString_of_drop (advanceBy (advanceBy (advanceBy st 1) 1) 1) o.2 _
                (by simp only [advanceBy_advanceBy, advanceBy_drop]
                    exact drop_shift _ _ _ _ (by omega) h3),
                bind_ok_eq]
              dsimp only
              rw [consume_of_drop
                (advanceBy (advanceBy (advanceBy (advanceBy st 1) 1) 1) (targetTokens o.2).length)
                _ _ .RIGHT_PAREN _
                (by simp only [advanceBy_advanceBy, advanceBy_drop]
                    exact drop_shift _ _ _ _ (by omega) h4) rfl
                (by intro hh; cases hh), bind_ok_eq]
              dsimp only
              rw [matchTok_pos_of_drop _ _ _ .COMMA
                (by simp only [advanceBy_advanceBy, advanceBy_drop]
                    exact drop_shift _ _ _ _ (by omega) h5) rfl (by intro hh; cases hh)]
              dsimp only
              rw [if_pos rfl]
              rw [ih m _ _ t0 rest (by intro hh; cases hh) ht0 (by simp at hfuel ⊢; omega)
                (by simp only [advanceBy_advanceBy, advanceBy_drop]
                    exact drop_shift _ _ _ _ (by omega) h6)]
              simp only [advanceBy_advanceBy]
              have hlen : (optionItemsTokens (o :: o2 :: os'')).length =
                  (targetTokens o.2).length + 5 + (optionItemsTokens (o2 :: os'')).length := by
                rw [show optionItemsTokens (o :: o2 :: os'') =
                    optionTokens o ++ mkTok .COMMA "," :: optionItemsTokens (o2 :: os'') from rfl,
                  optionTokens]
                simp
                omega
              rw [hlen]
              simp [optionChoiceOf, mkTok, advanceBy]
              omega


theorem targetsTokens_head (t : TargetRef) (ts' : List TargetRef) :
    ∃ tk tl, targetsTokens (t :: ts') = tk :: tl
      ∧ (tk.type = .IDENTIFIER ∨ tk.type = .AT) := by
  cases ts' with
  | nil =>
      cases t with
      | localRef id => exact ⟨_, _, rfl, Or.inl rfl⟩
      | qualifiedRef m n => exact ⟨_, _, rfl, Or.inr rfl⟩
  | cons t2 ts'' =>
      cases t with
      | localRef id => exact ⟨_, _, rfl, Or.inl rfl⟩
      | qualifiedRef m n => exact ⟨_, _, rfl, Or.inr rfl⟩

theorem parseTransitions_of_drop (fuel : Nat) (st : ParserState) (ts : List TargetRef)
    (transitions : List String) (rest : List Token)
    (hfuel : ts.length ≤ fuel)
    (h : st.tokens.drop st.current =
      mkTok .LEFT_BRACKET "[" :: (targetsTokens ts
        ++ mkTok .RIGHT_BRACKET "]" :: mkTok .SEMICOLON ";" :: rest)) :
    parseTransitions fuel st transitions =
      .ok (transitions ++ ts.map TargetRef.text,
        advanceBy st ((targetsTokens ts).length + 3)) := by
  have h1 := drop_succ_of_drop_cons _ _ _ _ h
  rw [parseTransitions]
  rw [consume_of_drop st _ _ .LEFT_BRACKET _ h rfl (by intro hh; cases hh), bind_ok_eq]
  dsimp only
  cases ts with
  | nil =>
      rw [targetsTokens, List.nil_append] at h1
      rw [if_pos (checkTok_pos_of_drop (advanceBy st 1) _ _ .RIGHT_BRACKET
        (by rw [advanceBy_drop]; exact h1) rfl (by intro hh; cases hh))]
      rw [show (pure (transitions, advanceBy st 1) :
          Except String (List String × ParserState)) = .ok (transitions, advanceBy st 1) from rfl,
        bind_ok_eq]
      dsimp only
      have h2 := drop_succ_of_drop_cons _ _ _ _ h1
      rw [consume_of_drop (advanceBy st 1) _ _ .RIGHT_BRACKET _
        (by rw [advanceBy_drop]; exact h1) rfl (by intro hh; cases hh), bind_ok_eq]
      dsimp only
      rw [consume_of_drop (advanceBy (advanceBy st 1) 1) _ _ .SEMICOLON _
        (by simp only [advanceBy_advanceBy, advanceBy_drop]
            exact drop_shift _ _ _ _ (by omega) h2) rfl
        (by intro hh; cases hh), bind_ok_eq]
      dsimp only
      simp only [advanceBy_advanceBy]
      simp [targetsTokens]
  | cons t ts' =>
      obtain ⟨tk, tl, htt, hty⟩ := targetsTokens_head t ts'
      rw [htt] at h1
      rw [List.cons_append] at h1
      rw [if_neg (by
        rw [checkTok_neg_of_drop (advanceBy st 1) tk _ .RIGHT_BRACKET
          (by rw [advanceBy_drop]; exact h1)
          (by rcases hty with hty | hty <;> rw [hty] <;> intro hh <;> cases hh)]
        exact Bool.false_ne_true)]
      rw [parseTransitionsItems_of_drop (t :: ts') fuel (advanceBy st 1) transitions
        (mkTok .RIGHT_BRACKET "]") (mkTok .SEMICOLON ";" :: rest)
        (by intro hh; cases hh) rfl hfuel
        (by rw [advanceBy_drop, htt, List.cons_append]; exact h1), bind_ok_eq]
      dsimp only
      have h2 : st.tokens.drop (st.current + 1 + (targetsTokens (t :: ts')).length) =
          mkTok .RIGHT_BRACKET "]" :: mkTok .SEMICOLON ";" :: rest := by
        have := drop_add_of_drop_append st.tokens (targetsTokens (t :: ts'))
          (st.current + 1) (mkTok .RIGHT_BRACKET "]" :: mkTok .SEMICOLON ";" :: rest)
          (by rw [htt, List.cons_append]; exact h1)
        exact this
      have h3 := drop_succ_of_drop_cons _ _ _ _ h2
      rw [consume_of_drop (advanceBy (advanceBy st 1) (targetsTokens (t :: ts')).length)
        _ _ .RIGHT_BRACKET _
        (by simp only [advanceBy_advanceBy, advanceBy_drop]
            exact drop_shift _ _ _ _ (by omega) h2) rfl
        (by intro hh; cases hh), bind_ok_eq]
      dsimp only
      rw [consume_of_drop _ _ _ .SEMICOLON _
        (by simp only [advanceBy_advanceBy, advanceBy_drop]
            exact drop_shift _ _ _ _ (by omega) h3) rfl
        (by intro hh; cases hh), bind_ok_eq]
      dsimp only
      simp only [advanceBy_advanceBy]
      rw [show 1 + (targetsTokens (t :: ts')).length + 1 + 1 =
          (targetsTokens (t :: ts')).length + 3 from by omega]

theorem optionItemsTokens_head (o : String × TargetRef) (os' : List (String × TargetRef)) :
    ∃ tl, optionItemsTokens (o :: os') = mkTok .LEFT_PAREN "(" :: tl := by
  cases os' with
  | nil => exact ⟨_, rfl⟩
  | cons o2 os'' => exact ⟨_, rfl⟩

theorem parseOptions_of_drop (fuel : Nat) (st : ParserState) (os : List (String × TargetRef))
    (options : List OptionChoice) (rest : List Token)
    (hfuel : os.length ≤ fuel)
    (h : st.tokens.drop st.current =
      mkTok .LEFT_BRACKET "[" :: (optionItemsTokens os
        ++ mkTok .RIGHT_BRACKET "]" :: mkTok .SEMICOLON ";" :: rest)) :
    parseOptions fuel st options =
      .ok (options ++ os.map optionChoiceOf,
        advanceBy st ((optionItemsTokens os).length + 3)) := by
  have h1 := drop_succ_of_drop_cons _ _ _ _ h
  rw [parseOptions]
  rw [consume_of_drop st _ _ .LEFT_BRACKET _ h rfl (by intro hh; cases hh), bind_ok_eq]
  dsimp only
  cases os with
  | nil =>
      rw [optionItemsTokens, List.nil_append] at h1
      rw [if_pos (checkTok_pos_of_drop (advanceBy st 1) _ _ .RIGHT_BRACKET
        (by rw [advanceBy_drop]; exact h1) rfl (by intro hh; cases hh))]
      rw [show (pure (options, advanceBy st 1) :
          Except String (List OptionChoice × ParserState)) =
          .ok (options, advanceBy st 1) from rfl,
        bind_ok_eq]
      dsimp only
      have h2 := drop_succ_of_drop_cons _ _ _ _ h1
      rw [consume_of_drop (advanceBy st 1) _ _ .RIGHT_BRACKET _
        (by rw [advanceBy_drop]; exact h1) rfl (by intro hh; cases hh), bind_ok_eq]
      dsimp only
      rw [consume_of_drop (advanceBy (advanceBy st 1) 1) _ _ .SEMICOLON _
        (by simp only [advanceBy_advanceBy, advanceBy_drop]
            exact drop_shift _ _ _ _ (by omega) h2) rfl
        (by intro hh; cases hh), bind_ok_eq]
      dsimp only
      simp only [advanceBy_advanceBy]
      simp [optionItemsTokens]
  | cons o os' =>
      obtain ⟨tl, htt⟩ := optionItemsTokens_head o os'
      rw [htt] at h1
      rw [List.cons_append] at h1
      rw [if_neg (by
        rw [checkTok_neg_of_drop (advanceBy st 1) _ _ .RIGHT_BRACKET
          (by rw [advanceBy_drop]; exact h1) (by intro hh; cases hh)]
        exact Bool.false_ne_true)]
      rw [parseOptionsItems_of_drop (o :: os') fuel (advanceBy st 1) options
        (mkTok .RIGHT_BRACKET "]") (mkTok .SEMICOLON ";" :: rest)
        (by intro hh; cases hh) rfl hfuel
        (by rw [advanceBy_drop, htt, List.cons_append]; exact h1), bind_ok_eq]
      dsimp only
      have h2 : st.tokens.drop (st.current + 1 + (optionItemsTokens (o :: os')).length) =
          mkTok .RIGHT_BRACKET "]" :: mkTok .SEMICOLON ";" :: rest := by
        exact drop_add_of_drop_append st.tokens (optionItemsTokens (o :: os'))
          (st.current + 1) (mkTok .RIGHT_BRACKET "]" :: mkTok .SEMICOLON ";" :: rest)
          (by rw [htt, List.cons_append]; exact h1)
      have h3 := drop_succ_of_drop_cons _ _ _ _ h2
      rw [consume_of_drop (advanceBy (advanceBy st 1) (optionItemsTokens (o :: os')).length)
        _ _ .RIGHT_BRACKET _
        (by simp only [advanceBy_advanceBy, advanceBy_drop]
            exact drop_shift _ _ _ _ (by omega) h2) rfl
        (by intro hh; cases hh), bind_ok_eq]
      dsimp only
      rw [consume_of_drop _ _ _ .SEMICOLON _
        (by simp only [advanceBy_advanceBy, advanceBy_drop]
            exact drop_shift _ _ _ _ (by omega) h3) rfl
        (by intro hh; cases hh), bind_ok_eq]
      dsimp only
      simp only [advanceBy_advanceBy]
      rw [show 1 + (optionItemsTokens (o :: os')).length + 1 + 1 =
          (optionItemsTokens (o :: os')).length + 3 from by omega]


theorem clausesTokens_nil : clausesTokens [] = [] := rfl

theorem clausesTokens_cons (c : Clause) (cs : List Clause) :
    clausesTokens (c :: cs) = clauseTokens c ++ clausesTokens cs := by
  simp [clausesTokens]

theorem ok_pair_congr {α : Type} (a b : α) (st : ParserState) (x y : Nat)
    (hab : a = b) (hxy : x = y) :
    (Except.ok (a, advanceBy st x) : Except String (α × ParserState)) =
      .ok (b, advanceBy st y) := by
  rw [hab, hxy]

theorem pure_ok_eq {α : Type} (x : α) : (pure x : Except String α) = .ok x := rfl

theorem parseNodeClauses_of_drop :
    ∀ (cs : List Clause) (fuel : Nat) (st : ParserState) (f : NodeFields)
      (t0 : Token) (rest : List Token),
      t0.type = .RIGHT_BRACE →
      st.tokens.drop st.current = clausesTokens cs ++ t0 :: rest →
      clausesFuel cs ≤ fuel →
      parseNodeClauses fuel st f =
        .ok (cs.foldl applyClause f, advanceBy st (clausesTokens cs).length) := by
  intro cs
  induction cs with
  | nil =>
      intro fuel st f t0 rest ht0 h hfuel
      rw [clausesTokens_nil, List.nil_append] at h
      cases fuel with
      | zero => simp [clausesFuel] at hfuel
      | succ m =>
          rw [parseNodeClauses]
          rw [checkTok_pos_of_drop st t0 rest .RIGHT_BRACE h ht0 (by intro hh; cases hh)]
          simp only [Bool.not_true, Bool.false_and, Bool.false_eq_true, if_false]
          rfl
  | cons c cs' ih =>
      intro fuel st f t0 rest ht0 h hfuel
      rw [clausesTokens_cons, List.append_assoc] at h
      cases fuel with
      | zero => simp [clausesFuel] at hfuel
      | succ m =>
          have hfuel' : clausesFuel cs' ≤ m := by
            simp only [clausesFuel, List.map_cons, List.sum_cons] at hfuel ⊢
            have hw : 1 ≤ clauseWeight c := by
              cases c <;> simp [clauseWeight]
            omega
          cases c with
          | typeClause k =>
              rw [show clauseTokens (.typeClause k) =
                  [mkTok .TYPE "тип", mkTok .COLON ":", kindTok k, mkTok .SEMICOLON ";"]
                  from rfl] at h
              rw [List.cons_append, List.cons_append, List.cons_append,
                List.cons_append, List.nil_append] at h
              have h1 := drop_succ_of_drop_cons _ _ _ _ h
              have h2 := drop_succ_of_drop_cons _ _ _ _ h1
              have h3 := drop_succ_of_drop_cons _ _ _ _ h2
              rw [parseNodeClauses]
              rw [if_pos (by
                rw [checkTok_neg_of_drop st _ _ .RIGHT_BRACE h (by intro hh; cases hh),
                  isAtEnd_of_drop st _ _ h (by intro hh; cases hh)]
                rfl)]
              rw [matchTok_pos_of_drop st _ _ .TYPE h rfl (by intro hh; cases hh)]
              dsimp only
              rw [if_pos rfl]
              rw [consume_of_drop (advanceBy st 1) _ _ .COLON _ h1 rfl
                (by intro hh; cases hh), bind_ok_eq]
              dsimp only
              rw [advanceTok_of_drop (advanceBy (advanceBy st 1) 1) _ _
                (by simp only [advanceBy_advanceBy, advanceBy_drop]
                    exact drop_shift _ _ _ _ (by omega) h2)
                (by cases k <;> intro hh <;> cases hh)]
              dsimp only
              have h4 := drop_succ_of_drop_cons _ _ _ _ h3
              cases k with
              | initial =>
                  rw [if_pos (by decide)]
                  rw [pure_ok_eq]
                  rw [bind_ok_eq]
                  rw [consume_of_drop (advanceBy (advanceBy (advanceBy st 1) 1) 1) _ _
                    .SEMICOLON _
                    (by simp only [advanceBy_advanceBy, advanceBy_drop]
                        exact drop_shift _ _ _ _ (by omega) h3) rfl
                    (by intro hh; cases hh), bind_ok_eq]
                  dsimp only
                  rw [ih m _ _ t0 rest ht0
                    (by simp only [advanceBy_advanceBy, advanceBy_drop]
                        exact drop_shift _ _ _ _ (by omega) h4) hfuel']
                  simp only [advanceBy_advanceBy]
                  refine ok_pair_congr _ _ _ _ _ rfl ?_
                  rw [clausesTokens_cons, List.length_append]
                  rfl
              | action =>
                  rw [if_neg (by decide), if_pos (by decide)]
                  rw [pure_ok_eq]
                  rw [bind_ok_eq]
                  rw [consume_of_drop (advanceBy (advanceBy (advanceBy st 1) 1) 1) _ _
                    .SEMICOLON _
                    (by simp only [advanceBy_advanceBy, advanceBy_drop]
                        exact drop_shift _ _ _ _ (by omega) h3) rfl
                    (by intro hh; cases hh), bind_ok_eq]
                  dsimp only
                  rw [ih m _ _ t0 rest ht0
                    (by simp only [advanceBy_advanceBy, advanceBy_drop]
                        exact drop_shift _ _ _ _ (by omega) h4) hfuel']
                  simp only [advanceBy_advanceBy]
                  refine ok_pair_congr _ _ _ _ _ rfl ?_
                  rw [clausesTokens_cons, List.length_append]
                  rfl
              | ending =>
                  rw [if_neg (by decide), if_neg (by decide), if_pos (by decide)]
                  rw [pure_ok_eq]
                  rw [bind_ok_eq]
                  rw [consume_of_drop (advanceBy (advanceBy (advanceBy st 1) 1) 1) _ _
                    .SEMICOLON _
                    (by simp only [advanceBy_advanceBy, advanceBy_drop]
                        exact drop_shift _ _ _ _ (by omega) h3) rfl
                    (by intro hh; cases hh), bind_ok_eq]
                  dsimp only
                  rw [ih m _ _ t0 rest ht0
                    (by simp only [advanceBy_advanceBy, advanceBy_drop]
                        exact drop_shift _ _ _ _ (by omega) h4) hfuel']
                  simp only [advanceBy_advanceBy]
                  refine ok_pair_congr _ _ _ _ _ rfl ?_
                  rw [clausesTokens_cons, List.length_append]
                  rfl
          | descriptionClause s =>
              rw [show clauseTokens (.descriptionClause s) =
                  [mkTok .DESCRIPTION "описание", mkTok .COLON ":", mkTok .STRING s,
                    mkTok .SEMICOLON ";"] from rfl] at h
              rw [List.cons_append, List.cons_append, List.cons_append,
                List.cons_append, List.nil_append] at h
              have h1 := drop_succ_of_drop_cons _ _ _ _ h
              have h2 := drop_succ_of_drop_cons _ _ _ _ h1
              have h3 := drop_succ_of_drop_cons _ _ _ _ h2
              have h4 := drop_succ_of_drop_cons _ _ _ _ h3
              rw [parseNodeClauses]
              rw [if_pos (by
                rw [checkTok_neg_of_drop st _ _ .RIGHT_BRACE h (by intro hh; cases hh),
                  isAtEnd_of_drop st _ _ h (by intro hh; cases hh)]
                rfl)]
              rw [matchTok_neg_of_drop st _ _ .TYPE h (by intro hh; cases hh)]
              dsimp only
              rw [if_neg (by simp)]
              rw [matchTok_pos_of_drop st _ _ .DESCRIPTION h rfl (by intro hh; cases hh)]
              dsimp only
              rw [if_pos rfl]
              rw [consume_of_drop (advanceBy st 1) _ _ .COLON _ h1 rfl
                (by intro hh; cases hh), bind_ok_eq]
              dsimp only
              rw [consume_of_drop (advanceBy (advanceBy st 1) 1) _ _ .STRING _
                (by simp only [advanceBy_advanceBy, advanceBy_drop]
                    exact drop_shift _ _ _ _ (by omega) h2) rfl
                (by intro hh; cases hh), bind_ok_eq]
              dsimp only
              rw [consume_of_drop (advanceBy (advanceBy (advanceBy st 1) 1) 1) _ _
                .SEMICOLON _
                (by simp only [advanceBy_advanceBy, advanceBy_drop]
                    exact drop_shift _ _ _ _ (by omega) h3) rfl
                (by intro hh; cases hh), bind_ok_eq]
              dsimp only
              rw [ih m _ _ t0 rest ht0
                (by simp only [advanceBy_advanceBy, advanceBy_drop]
                    exact drop_shift _ _ _ _ (by omega) h4) hfuel']
              simp only [advanceBy_advanceBy]
              refine ok_pair_congr _ _ _ _ _ rfl ?_
              rw [clausesTokens_cons, List.length_append]
              rfl
          | titleClause s =>
              rw [show clauseTokens (.titleClause s) =
                  [mkTok .TITLE "название", mkTok .COLON ":", mkTok .STRING s,
                    mkTok .SEMICOLON ";"] from rfl] at h
              rw [List.cons_append, List.cons_append, List.cons_append,
                List.cons_append, List.nil_append] at h
              have h1 := drop_succ_of_drop_cons _ _ _ _ h
              have h2 := drop_succ_of_drop_cons _ _ _ _ h1
              have h3 := drop_succ_of_drop_cons _ _ _ _ h2
              have h4 := drop_succ_of_drop_cons _ _ _ _ h3
              rw [parseNodeClauses]
              rw [if_pos (by
                rw [checkTok_neg_of_drop st _ _ .RIGHT_BRACE h (by intro hh; cases hh),
                  isAtEnd_of_drop st _ _ h (by intro hh; cases hh)]
                rfl)]
              rw [matchTok_neg_of_drop st _ _ .TYPE h (by intro hh; cases hh)]
              dsimp only
              rw [if_neg (by simp)]
              rw [matchTok_neg_of_drop st _ _ .DESCRIPTION h (by intro hh; cases hh)]
              dsimp only
              rw [if_neg (by simp)]
              rw [matchTok_neg_of_drop st _ _ .TRANSITIONS h (by intro hh; cases hh)]
              dsimp only
              rw [if_neg (by simp)]
              rw [matchTok_neg_of_drop st _ _ .OPTIONS h (by intro hh; cases hh)]
              dsimp only
              rw [if_neg (by simp)]
              rw [matchTok_pos_of_drop st _ _ .TITLE h rfl (by intro hh; cases hh)]
              dsimp only
              rw [if_pos rfl]
              rw [consume_of_drop (advanceBy st 1) _ _ .COLON _ h1 rfl
                (by intro hh; cases hh), bind_ok_eq]
              dsimp only
              rw [consume_of_drop (advanceBy (advanceBy st 1) 1) _ _ .STRING _
                (by simp only [advanceBy_advanceBy, advanceBy_drop]
                    exact drop_shift _ _ _ _ (by omega) h2) rfl
                (by intro hh; cases hh), bind_ok_eq]
              dsimp only
              rw [consume_of_drop (advanceBy (advanceBy (advanceBy st 1) 1) 1) _ _
                .SEMICOLON _
                (by simp only [advanceBy_advanceBy, advanceBy_drop]
                    exact drop_shift _ _ _ _ (by omega) h3) rfl
                (by intro hh; cases hh), bind_ok_eq]
              dsimp only
              rw [ih m _ _ t0 rest ht0
                (by simp only [advanceBy_advanceBy, advanceBy_drop]
                    exact drop_shift _ _ _ _ (by omega) h4) hfuel']
              simp only [advanceBy_advanceBy]
              refine ok_pair_congr _ _ _ _ _ rfl ?_
              rw [clausesTokens_cons, List.length_append]
              rfl
          | transitionsClause ts =>
              rw [show clauseTokens (.transitionsClause ts) =
                  mkTok .TRANSITIONS "переходы" :: mkTok .COLON ":" :: mkTok .LEFT_BRACKET "["
                    :: (targetsTokens ts ++ [mkTok .RIGHT_BRACKET "]", mkTok .SEMICOLON ";"])
                  from rfl] at h
              rw [List.cons_append, List.cons_append, List.cons_append,
                List.append_assoc, List.cons_append, List.cons_append, List.nil_append] at h
              have h1 := drop_succ_of_drop_cons _ _ _ _ h
              have h2 := drop_succ_of_drop_cons _ _ _ _ h1
              rw [parseNodeClauses]
              rw [if_pos (by
                rw [checkTok_neg_of_drop st _ _ .RIGHT_BRACE h (by intro hh; cases hh),
                  isAtEnd_of_drop st _ _ h (by intro hh; cases hh)]
                rfl)]
              rw [matchTok_neg_of_drop st _ _ .TYPE h (by intro hh; cases hh)]
              dsimp only
              rw [if_neg (by simp)]
              rw [matchTok_neg_of_drop st _ _ .DESCRIPTION h (by intro hh; cases hh)]
              dsimp only
              rw [if_neg (by simp)]
              rw [matchTok_pos_of_drop st _ _ .TRANSITIONS h rfl (by intro hh; cases hh)]
              dsimp only
              rw [if_pos rfl]
              rw [consume_of_drop (advanceBy st 1) _ _ .COLON _ h1 rfl
                (by intro hh; cases hh), bind_ok_eq]
              dsimp only
              have hifuel : ts.length ≤ m := by
                simp only [clausesFuel, List.map_cons, List.sum_cons, clauseWeight] at hfuel
                omega
              rw [parseTransitions_of_drop m (advanceBy (advanceBy st 1) 1) ts
                f.transitions _ hifuel
                (by simp only [advanceBy_advanceBy, advanceBy_drop]
                    exact drop_shift _ _ _ _ (by omega) h2), bind_ok_eq]
              dsimp only
              have h3 : st.tokens.drop (st.current + 1 + 1 + ((targetsTokens ts).length + 3)) =
                  clausesTokens cs' ++ t0 :: rest := by
                have h2x := drop_succ_of_drop_cons _ _ _ _ h2
                have := drop_add_of_drop_append st.tokens (targetsTokens ts)
                  (st.current + 1 + 1 + 1)
                  (mkTok .RIGHT_BRACKET "]" :: mkTok .SEMICOLON ";"
                    :: (clausesTokens cs' ++ t0 :: rest)) h2x
                have h4 := drop_succ_of_drop_cons _ _ _ _ this
                have h5 := drop_succ_of_drop_cons _ _ _ _ h4
                exact drop_shift _ _ _ _ (by omega) h5
              rw [ih m _ _ t0 rest ht0
                (by simp only [advanceBy_advanceBy, advanceBy_drop]
                    exact drop_shift _ _ _ _ (by omega) h3) hfuel']
              simp only [advanceBy_advanceBy]
              refine ok_pair_congr _ _ _ _ _ rfl ?_
              rw [clausesTokens_cons, List.length_append]
              rw [show clauseTokens (.transitionsClause ts) =
                  mkTok .TRANSITIONS "переходы" :: mkTok .COLON ":" :: mkTok .LEFT_BRACKET "["
                    :: (targetsTokens ts ++ [mkTok .RIGHT_BRACKET "]", mkTok .SEMICOLON ";"])
                  from rfl]
              simp
              omega
          | optionsClause os =>
              rw [show clauseTokens (.optionsClause os) =
                  mkTok .OPTIONS "варианты" :: mkTok .COLON ":" :: mkTok .LEFT_BRACKET "["
                    :: (optionItemsTokens os ++ [mkTok .RIGHT_BRACKET "]", mkTok .SEMICOLON ";"])
                  from rfl] at h
              rw [List.cons_append, List.cons_append, List.cons_append,
                List.append_assoc, List.cons_append, List.cons_append, List.nil_append] at h
              have h1 := drop_succ_of_drop_cons _ _ _ _ h
              have h2 := drop_succ_of_drop_cons _ _ _ _ h1
              rw [parseNodeClauses]
              rw [if_pos (by
                rw [checkTok_neg_of_drop st _ _ .RIGHT_BRACE h (by intro hh; cases hh),
                  isAtEnd_of_drop st _ _ h (by intro hh; cases hh)]
                rfl)]
              rw [matchTok_neg_of_drop st _ _ .TYPE h (by intro hh; cases hh)]
              dsimp only
              rw [if_neg (by simp)]
              rw [matchTok_neg_of_drop st _ _ .DESCRIPTION h (by intro hh; cases hh)]
              dsimp only
              rw [if_neg (by simp)]
              rw [matchTok_neg_of_drop st _ _ .TRANSITIONS h (by intro hh; cases hh)]
              dsimp only
              rw [if_neg (by simp)]
              rw [matchTok_pos_of_drop st _ _ .OPTIONS h rfl (by intro hh; cases hh)]
              dsimp only
              rw [if_pos rfl]
              rw [consume_of_drop (advanceBy st 1) _ _ .COLON _ h1 rfl
                (by intro hh; cases hh), bind_ok_eq]
              dsimp only
              have hifuel : os.length ≤ m := by
                simp only [clausesFuel, List.map_cons, List.sum_cons, clauseWeight] at hfuel
                omega
              rw [parseOptions_of_drop m (advanceBy (advanceBy st 1) 1) os
                f.options _ hifuel
                (by simp only [advanceBy_advanceBy, advanceBy_drop]
                    exact drop_shift _ _ _ _ (by omega) h2), bind_ok_eq]
              dsimp only
              have h3 : st.tokens.drop (st.current + 1 + 1 + ((optionItemsTokens os).length + 3)) =
                  clausesTokens cs' ++ t0 :: rest := by
                have h2x := drop_succ_of_drop_cons _ _ _ _ h2
                have := drop_add_of_drop_append st.tokens (optionItemsTokens os)
                  (st.current + 1 + 1 + 1)
                  (mkTok .RIGHT_BRACKET "]" :: mkTok .SEMICOLON ";"
                    :: (clausesTokens cs' ++ t0 :: rest)) h2x
                have h4 := drop_succ_of_drop_cons _ _ _ _ this
                have h5 := drop_succ_of_drop_cons _ _ _ _ h4
                exact drop_shift _ _ _ _ (by omega) h5
              rw [ih m _ _ t0 rest ht0
                (by simp only [advanceBy_advanceBy, advanceBy_drop]
                    exact drop_shift _ _ _ _ (by omega) h3) hfuel']
              simp only [advanceBy_advanceBy]
              refine ok_pair_congr _ _ _ _ _ rfl ?_
              rw [clausesTokens_cons, List.length_append]
              rw [show clauseTokens (.optionsClause os) =
                  mkTok .OPTIONS "варианты" :: mkTok .COLON ":" :: mkTok .LEFT_BRACKET "["
                    :: (optionItemsTokens os ++ [mkTok .RIGHT_BRACKET "]", mkTok .SEMICOLON ";"])
                  from rfl]
              simp
              omega


/-- The NodeDefinition `parseNodeDefinition` builds from its final local
variables. -/
def nodeOfFields (id : String) (f : NodeFields) (line column : Nat) : NodeDefinition :=
  match f.nodeType with
  | .initial => .initialNode id f.description f.transitions line column
  | .action => .actionNode id f.description f.options line column
  | .ending => .endingNode id f.description f.title line column

theorem parseNodeDefinition_of_drop (fuel : Nat) (st : ParserState) (id : String)
    (cs : List Clause) (t0 : Token) (rest : List Token)
    (ht0 : t0.type = .RIGHT_BRACE)
    (h : st.tokens.drop st.current = clausesTokens cs ++ t0 :: rest)
    (hfuel : clausesFuel cs ≤ fuel) :
    parseNodeDefinition fuel st id =
      .ok (nodeOfFields id (cs.foldl applyClause initialFields) st.peek.line st.peek.column,
        advanceBy st (clausesTokens cs).length) := by
  rw [parseNodeDefinition]
  rw [parseNodeClauses_of_drop cs fuel st initialFields t0 rest ht0 h hfuel, bind_ok_eq]
  rfl

/-- The node variant kept after a clause list: the last `type` clause wins. -/
def lastKind : List Clause → NodeKind → NodeKind
  | [], d => d
  | .typeClause k :: cs, _ => lastKind cs k
  | .descriptionClause _ :: cs, d => lastKind cs d
  | .transitionsClause _ :: cs, d => lastKind cs d
  | .optionsClause _ :: cs, d => lastKind cs d
  | .titleClause _ :: cs, d => lastKind cs d

/-- The description kept after a clause list: the last occurrence wins. -/
def lastDescription : List Clause → String → String
  | [], d => d
  | .typeClause _ :: cs, d => lastDescription cs d
  | .descriptionClause s :: cs, _ => lastDescription cs s
  | .transitionsClause _ :: cs, d => lastDescription cs d
  | .optionsClause _ :: cs, d => lastDescription cs d
  | .titleClause _ :: cs, d => lastDescription cs d

/-- The title kept after a clause list: the last occurrence wins. -/
def lastTitle : List Clause → String → String
  | [], d => d
  | .typeClause _ :: cs, d => lastTitle cs d
  | .descriptionClause _ :: cs, d => lastTitle cs d
  | .transitionsClause _ :: cs, d => lastTitle cs d
  | .optionsClause _ :: cs, d => lastTitle cs d
  | .titleClause s :: cs, _ => lastTitle cs s

/-- All transition targets of a clause list, every occurrence concatenated. -/
def allTransitions : List Clause → List String
  | [] => []
  | .typeClause _ :: cs => allTransitions cs
  | .descriptionClause _ :: cs => allTransitions cs
  | .transitionsClause ts :: cs => ts.map TargetRef.text ++ allTransitions cs
  | .optionsClause _ :: cs => allTransitions cs
  | .titleClause _ :: cs => allTransitions cs

/-- All options of a clause list, every occurrence concatenated. -/
def allOptions : List Clause → List OptionChoice
  | [] => []
  | .typeClause _ :: cs => allOptions cs
  | .descriptionClause _ :: cs => allOptions cs
  | .transitionsClause _ :: cs => allOptions cs
  | .optionsClause os :: cs => os.map optionChoiceOf ++ allOptions cs
  | .titleClause _ :: cs => allOptions cs

theorem foldl_applyClause (cs : List Clause) : ∀ f : NodeFields,
    cs.foldl applyClause f =
      { nodeType := lastKind cs f.nodeType
      , description := lastDescription cs f.description
      , transitions := f.transitions ++ allTransitions cs
      , options := f.options ++ allOptions cs
      , title := lastTitle cs f.title } := by
  induction cs with
  | nil =>
      intro f
      simp [lastKind, lastDescription, lastTitle, allTransitions, allOptions]
  | cons c cs ih =>
      intro f
      cases c <;>
        simp [List.foldl_cons, applyClause, lastKind, lastDescription, lastTitle,
          allTransitions, allOptions, ih, List.append_assoc]


/-- A quest source whose node `а` repeats the `переходы` clause. -/
def dupClauseSrc : String :=
  "квест К; цель \"g\"; граф \x7b начало: а; узлы \x7b а: \x7b тип: начальный; "
    ++ "переходы: [б]; переходы: [в]; \x7d б: \x7bтип: концовка; название:\"1\";\x7d "
    ++ "в: \x7bтип: концовка; название:\"2\";\x7d \x7d \x7d конец;"



set_option maxRecDepth 8192 in
/-- C3 counterexample: in `dupClauseSrc` the node `а` repeats the
`переходы` clause (`[б]` then `[в]`); the parsed node keeps BOTH lists
concatenated, `["б", "в"]`, not the final occurrence `["в"]` alone, because
`parseNodeDefinition` pushes transition targets into one array instead of
reassigning it. -/
theorem C3_counterexample :
    (parseSource dupClauseSrc).map (fun p => recordGet p.graph.nodes "а") =
      .ok (some (.initialNode "а" "" ["б", "в"] 1 50)) ∧
    (["б", "в"] : List String) ≠ ["в"] :=
  ⟨rfl, by decide⟩

/-- C3 (amended): when a node body repeats clauses, only `тип`, `описание`
and `название` keep the last occurrence; `переходы` and `варианты` are
accumulated across ALL occurrences, in order. For every clause list laid out
before the closing brace, `parseNodeDefinition` returns the node built from
the last `type` clause (defaulting to Action), the last description and
title, and the concatenation of every transitions/options clause. -/
theorem C3_duplicate_clauses_amended (fuel : Nat) (st : ParserState) (id : String)
    (cs : List Clause) (t0 : Token) (rest : List Token)
    (ht0 : t0.type = .RIGHT_BRACE)
    (h : st.tokens.drop st.current = clausesTokens cs ++ t0 :: rest)
    (hfuel : clausesFuel cs ≤ fuel) :
    parseNodeDefinition fuel st id =
      .ok (nodeOfFields id
        { nodeType := lastKind cs .action
        , description := lastDescription cs ""
        , transitions := allTransitions cs
        , options := allOptions cs
        , title := lastTitle cs "" } st.peek.line st.peek.column,
        advanceBy st (clausesTokens cs).length) := by
  rw [parseNodeDefinition_of_drop fuel st id cs t0 rest ht0 h hfuel, foldl_applyClause]
  rfl

/-- A node body with duplicated description, transitions, options and title
clauses, used to instantiate the amended C3 theorem. -/
def c3Clauses : List Clause :=
  [ .typeClause .initial
  , .descriptionClause "первый"
  , .transitionsClause [.localRef "б"]
  , .descriptionClause "второй"
  , .transitionsClause [.localRef "в", .qualifiedRef "М" "у"]
  , .optionsClause [("да", .localRef "б")]
  , .optionsClause [("нет", .localRef "в")]
  , .titleClause "т1"
  , .titleClause "т2" ]

/-- The parser state holding exactly the serialized `c3Clauses` body. -/
def c3State : ParserState :=
  { tokens := clausesTokens c3Clauses ++ [mkTok .RIGHT_BRACE "\x7d"], current := 0 }

/-- C3 witness: the amended theorem applied to a concrete node body in which
every clause kind occurs twice; the scalar fields keep the second occurrence
while transitions and options concatenate both. -/
theorem C3_duplicate_clauses_witness :
    parseNodeDefinition 20 c3State "а" =
      .ok (nodeOfFields "а"
        { nodeType := lastKind c3Clauses .action
        , description := lastDescription c3Clauses ""
        , transitions := allTransitions c3Clauses
        , options := allOptions c3Clauses
        , title := lastTitle c3Clauses "" } c3State.peek.line c3State.peek.column,
        advanceBy c3State (clausesTokens c3Clauses).length) ∧
    allTransitions c3Clauses = ["б", "в", "@М.у"] ∧
    lastDescription c3Clauses "" = "второй" ∧
    lastTitle c3Clauses "" = "т2" :=
  ⟨C3_duplicate_clauses_amended 20 c3State "а" c3Clauses (mkTok .RIGHT_BRACE "\x7d") []
      rfl rfl (by decide), rfl, rfl, rfl⟩

end QuestLang
